import Mathlib

set_option maxRecDepth 8192

/-!
# Verification model of the fgp-daemon core (protocol, server routing, client)

Shallow embedding of the Rust sources:
* `src/protocol.rs` — `Request`, `Response`, `ErrorInfo`, `ResponseMeta`,
  NDJSON encode/decode (via `serde_json`).
* `src/server.rs`  — connection handler routing, built-in `health`/`stop`/`methods`,
  accept loop / graceful shutdown.
* `src/client.rs`  — `send_request` connect + auto-start retry path.

Modelling conventions:
* JSON numbers are modelled as integers (`Int`).  The source's `f64` fields
  (`server_ms`) and float JSON literals are outside the embedding's scope
  (floating point), so the model's parser rejects float syntax, as documented
  at `parseNatNum`.
* `HashMap<String, Value>` is modelled as an association list
  `List (String × Json)`; serialization order is the list order (the Rust
  `HashMap` iteration order is arbitrary, which the list makes explicit).
* Wall-clock quantities (`server_ms`, `uptime`, `pid`, timestamps) are threaded
  through as explicit parameters.
-/

/-- JSON value model (`serde_json::Value` restricted to integer numbers). -/
inductive Json where
  | null : Json
  | bool : Bool → Json
  | num : Int → Json
  | str : String → Json
  | arr : List Json → Json
  | obj : List (String × Json) → Json

mutual

/-- Boolean equality on JSON values. -/
def Json.beq : Json → Json → Bool
  | .null, .null => true
  | .bool a, .bool b => a == b
  | .num a, .num b => a == b
  | .str a, .str b => a == b
  | .arr a, .arr b => beqElems a b
  | .obj a, .obj b => beqMembers a b
  | _, _ => false

/-- Boolean equality on JSON arrays. -/
def beqElems : List Json → List Json → Bool
  | [], [] => true
  | a :: as, b :: bs => Json.beq a b && beqElems as bs
  | _, _ => false

/-- Boolean equality on JSON object member lists. -/
def beqMembers : List (String × Json) → List (String × Json) → Bool
  | [], [] => true
  | (k, v) :: as, (k2, v2) :: bs => k == k2 && Json.beq v v2 && beqMembers as bs
  | _, _ => false

end

mutual

/-- Simultaneous induction over JSON values, arrays, and member lists. -/
def Json.recAll {P : Json → Prop} {Q : List Json → Prop} {R : List (String × Json) → Prop}
    (hnull : P .null) (hbool : ∀ b, P (.bool b)) (hnum : ∀ n, P (.num n))
    (hstr : ∀ s, P (.str s))
    (harr : ∀ vs, Q vs → P (.arr vs)) (hobj : ∀ kvs, R kvs → P (.obj kvs))
    (hqnil : Q []) (hqcons : ∀ v vs, P v → Q vs → Q (v :: vs))
    (hrnil : R []) (hrcons : ∀ k v kvs, P v → R kvs → R ((k, v) :: kvs)) :
    ∀ v, P v
  | .null => hnull
  | .bool b => hbool b
  | .num n => hnum n
  | .str s => hstr s
  | .arr vs => harr vs
      (Json.recAllElems hnull hbool hnum hstr harr hobj hqnil hqcons hrnil hrcons vs)
  | .obj kvs => hobj kvs
      (Json.recAllMembers hnull hbool hnum hstr harr hobj hqnil hqcons hrnil hrcons kvs)

/-- Simultaneous induction: array part. -/
def Json.recAllElems {P : Json → Prop} {Q : List Json → Prop} {R : List (String × Json) → Prop}
    (hnull : P .null) (hbool : ∀ b, P (.bool b)) (hnum : ∀ n, P (.num n))
    (hstr : ∀ s, P (.str s))
    (harr : ∀ vs, Q vs → P (.arr vs)) (hobj : ∀ kvs, R kvs → P (.obj kvs))
    (hqnil : Q []) (hqcons : ∀ v vs, P v → Q vs → Q (v :: vs))
    (hrnil : R []) (hrcons : ∀ k v kvs, P v → R kvs → R ((k, v) :: kvs)) :
    ∀ vs, Q vs
  | [] => hqnil
  | v :: vs => hqcons v vs
      (Json.recAll hnull hbool hnum hstr harr hobj hqnil hqcons hrnil hrcons v)
      (Json.recAllElems hnull hbool hnum hstr harr hobj hqnil hqcons hrnil hrcons vs)

/-- Simultaneous induction: object-member part. -/
def Json.recAllMembers {P : Json → Prop} {Q : List Json → Prop} {R : List (String × Json) → Prop}
    (hnull : P .null) (hbool : ∀ b, P (.bool b)) (hnum : ∀ n, P (.num n))
    (hstr : ∀ s, P (.str s))
    (harr : ∀ vs, Q vs → P (.arr vs)) (hobj : ∀ kvs, R kvs → P (.obj kvs))
    (hqnil : Q []) (hqcons : ∀ v vs, P v → Q vs → Q (v :: vs))
    (hrnil : R []) (hrcons : ∀ k v kvs, P v → R kvs → R ((k, v) :: kvs)) :
    ∀ kvs, R kvs
  | [] => hrnil
  | (k, v) :: kvs => hrcons k v kvs
      (Json.recAll hnull hbool hnum hstr harr hobj hqnil hqcons hrnil hrcons v)
      (Json.recAllMembers hnull hbool hnum hstr harr hobj hqnil hqcons hrnil hrcons kvs)

end

def Json.beq_iff : ∀ a b : Json, Json.beq a b = true ↔ a = b := by
  have main := Json.recAll
    (P := fun a => ∀ b, Json.beq a b = true ↔ a = b)
    (Q := fun as => ∀ bs, beqElems as bs = true ↔ as = bs)
    (R := fun as => ∀ bs, beqMembers as bs = true ↔ as = bs)
    (by intro b; cases b <;> simp [Json.beq])
    (by intro x b; cases b <;> simp [Json.beq])
    (by intro n b; cases b <;> simp [Json.beq])
    (by intro s b; cases b <;> simp [Json.beq])
    (by
      intro vs ih b
      cases b with
      | arr bs => simp [Json.beq, ih bs]
      | null => simp [Json.beq]
      | bool x => simp [Json.beq]
      | num n => simp [Json.beq]
      | str s => simp [Json.beq]
      | obj kvs => simp [Json.beq])
    (by
      intro kvs ih b
      cases b with
      | obj bs => simp [Json.beq, ih bs]
      | null => simp [Json.beq]
      | bool x => simp [Json.beq]
      | num n => simp [Json.beq]
      | str s => simp [Json.beq]
      | arr vs => simp [Json.beq])
    (by intro bs; cases bs <;> simp [beqElems])
    (by
      intro v vs ihv ihs bs
      cases bs with
      | nil => simp [beqElems]
      | cons b bs => simp [beqElems, ihv b, ihs bs])
    (by intro bs; cases bs <;> simp [beqMembers])
    (by
      intro k v kvs ihv ihs bs
      cases bs with
      | nil => simp [beqMembers]
      | cons b bs =>
        obtain ⟨k2, v2⟩ := b
        simp [beqMembers, ihv v2, ihs bs])
  exact main

instance : DecidableEq Json := fun a b =>
  decidable_of_iff (Json.beq a b = true) (Json.beq_iff a b)

/-- ASCII whitespace accepted between JSON tokens by `serde_json`. -/
def isWs (c : Char) : Bool :=
  c == ' ' || c == '\n' || c == '\t' || c == '\r'

/-- Drop leading JSON whitespace. -/
def skipWs (l : List Char) : List Char :=
  l.dropWhile isWs

/-- `serde_json`'s per-character string escaping: `"` and `\` get a backslash,
control characters below 0x20 get the short forms `\b \t \n \f \r` or a
lowercase `\u00XX` escape; everything else is emitted raw. -/
def escapeChar (c : Char) : List Char :=
  if c = '"' then ['\\', '"']
  else if c = '\\' then ['\\', '\\']
  else if c.toNat < 0x20 then
    if c = '\x08' then ['\\', 'b']
    else if c = '\t' then ['\\', 't']
    else if c = '\n' then ['\\', 'n']
    else if c = '\x0c' then ['\\', 'f']
    else if c = '\r' then ['\\', 'r']
    else ['\\', 'u', '0', '0', Nat.digitChar (c.toNat / 16), Nat.digitChar (c.toNat % 16)]
  else [c]

/-- Escape a character list (body of a JSON string literal). -/
def escapeList : List Char → List Char
  | [] => []
  | c :: r => escapeChar c ++ escapeList r

/-- Render a JSON string literal, including the surrounding quotes. -/
def renderStr (s : String) : List Char :=
  '"' :: escapeList s.data ++ ['"']

/-- Decimal digits of a natural number, most significant first
(accumulator form, mirroring the standard itoa loop).  The first argument is
fuel: any fuel at least `n` gives the digits of `n`, and the fuel-0 arm
coincides with the `n < 10` arm so it is exercised only for `n = 0`. -/
def natDigitsGo : Nat → Nat → List Char → List Char
  | 0, n, acc => Nat.digitChar n :: acc
  | f + 1, n, acc =>
    if n < 10 then Nat.digitChar n :: acc
    else natDigitsGo f (n / 10) (Nat.digitChar (n % 10) :: acc)

/-- Decimal rendering of a natural number. -/
def natDigits (n : Nat) : List Char :=
  natDigitsGo n n []

/-- Decimal rendering of an integer (serde_json's integer formatting). -/
def intRender (n : Int) : List Char :=
  if n < 0 then '-' :: natDigits (-n).toNat else natDigits n.toNat

mutual

/-- Compact JSON rendering (serde_json `to_string`: no spaces, fields as given). -/
def Json.render : Json → List Char
  | .null => ("null" : String).data
  | .bool true => ("true" : String).data
  | .bool false => ("false" : String).data
  | .num n => intRender n
  | .str s => renderStr s
  | .arr vs => '[' :: renderElems vs ++ [']']
  | .obj kvs => '{' :: renderMembers kvs ++ ['}']

/-- Render array elements, comma separated. -/
def renderElems : List Json → List Char
  | [] => []
  | [v] => v.render
  | v :: vs => v.render ++ ',' :: renderElems vs

/-- Render object members, comma separated, keys escaped. -/
def renderMembers : List (String × Json) → List Char
  | [] => []
  | [(k, v)] => renderStr k ++ ':' :: v.render
  | (k, v) :: kvs => renderStr k ++ ':' :: v.render ++ ',' :: renderMembers kvs

end

/-- Value of a hex digit, accepting both cases (as `serde_json` does). -/
def hexVal (c : Char) : Option Nat :=
  if '0' ≤ c ∧ c ≤ '9' then some (c.toNat - 48)
  else if 'a' ≤ c ∧ c ≤ 'f' then some (c.toNat - 87)
  else if 'A' ≤ c ∧ c ≤ 'F' then some (c.toNat - 55)
  else none

/-- Build a `Char` from a code point, failing on invalid scalar values
(lone surrogates), as `serde_json` does. -/
def mkChar (n : Nat) : Option Char :=
  if h : n.isValidChar then some ⟨⟨n, by
    have : n < 1114112 := by
      rcases h with h | h
      · omega
      · omega
    exact Nat.lt_trans this (by omega)⟩, by
    simpa [UInt32.isValidChar, Nat.isValidChar] using h⟩
  else none

/-- Parse a `\uXXXX` escape (after the `\u`), combining surrogate pairs and
rejecting lone surrogates, as `serde_json` does. -/
def parseUEscape (l : List Char) : Option (Char × List Char) :=
  match l with
  | h1 :: h2 :: h3 :: h4 :: r3 =>
    match hexVal h1, hexVal h2, hexVal h3, hexVal h4 with
    | some a, some b, some cc, some d =>
      let n := ((a * 16 + b) * 16 + cc) * 16 + d
      if 0xD800 ≤ n ∧ n < 0xDC00 then
        -- high surrogate: a low surrogate escape must follow
        match r3 with
        | x1 :: x2 :: g1 :: g2 :: g3 :: g4 :: r4 =>
          if x1 = '\\' ∧ x2 = 'u' then
            match hexVal g1, hexVal g2, hexVal g3, hexVal g4 with
            | some a2, some b2, some c2, some d2 =>
              let m := ((a2 * 16 + b2) * 16 + c2) * 16 + d2
              if 0xDC00 ≤ m ∧ m < 0xE000 then
                (mkChar (0x10000 + (n - 0xD800) * 0x400 + (m - 0xDC00))).map fun ch => (ch, r4)
              else none
            | _, _, _, _ => none
          else none
        | _ => none
      else (mkChar n).map fun ch => (ch, r3)
    | _, _, _, _ => none
  | _ => none

/-- Parse one escape sequence (after the backslash). -/
def parseEscape (l : List Char) : Option (Char × List Char) :=
  match l with
  | [] => none
  | e :: r2 =>
    if e = '"' then some ('"', r2)
    else if e = '\\' then some ('\\', r2)
    else if e = '/' then some ('/', r2)
    else if e = 'b' then some ('\x08', r2)
    else if e = 'f' then some ('\x0c', r2)
    else if e = 'n' then some ('\n', r2)
    else if e = 'r' then some ('\r', r2)
    else if e = 't' then some ('\t', r2)
    else if e = 'u' then parseUEscape r2
    else none

/-- Parse the body of a JSON string literal (after the opening quote), up to
and including the closing quote; raw control characters are rejected, as in
`serde_json`.  The fuel only bounds recursion depth: every step consumes at
least one character, so the `length + 1` supplied at each call site never
runs out. -/
def parseStrBody : Nat → List Char → Option (List Char × List Char)
  | 0, _ => none
  | _ + 1, [] => none
  | f + 1, c :: r =>
    if c = '"' then some ([], r)
    else if c = '\\' then
      match parseEscape r with
      | none => none
      | some (ch, r2) => (parseStrBody f r2).map fun p => (ch :: p.1, p.2)
    else if c.toNat < 0x20 then none
    else (parseStrBody f r).map fun p => (c :: p.1, p.2)

/-- Numeric value of a list of decimal digit characters. -/
def digitsVal (ds : List Char) : Nat :=
  ds.foldl (fun a c => 10 * a + (c.toNat - 48)) 0

/-- Parse an unsigned JSON integer.  Mirrors `serde_json`'s grammar for the
integer part: a leading `0` must not be followed by another digit.  Float
syntax (`.`, `e`) is outside the model's scope: the continuation characters
are left in the remainder, where no caller accepts them, so float literals
make the whole parse fail (where `serde_json` would produce an `f64`). -/
def parseNatNum : List Char → Option (Nat × List Char)
  | [] => none
  | c :: r =>
    if c = '0' then
      match r with
      | d :: _ => if d.isDigit then none else some (0, r)
      | [] => some (0, ([] : List Char))
    else if c.isDigit then
      some (digitsVal (c :: r.takeWhile Char.isDigit), r.dropWhile Char.isDigit)
    else none

/-- Consume an expected literal character sequence (keyword tails). -/
def expectChars : List Char → List Char → Option (List Char)
  | [], l => some l
  | e :: es, c :: l => if c = e then expectChars es l else none
  | _ :: _, [] => none

mutual

/-- Fueled JSON value parser (the fuel only bounds recursion depth; the
top-level entry point supplies more fuel than any input can consume).
Mirrors `serde_json`'s grammar restricted to integer numbers. -/
def parseVal : Nat → List Char → Option (Json × List Char)
  | 0, _ => none
  | _ + 1, [] => none
  | f + 1, c :: r =>
    if c = 'n' then (expectChars ['u', 'l', 'l'] r).map fun r2 => (.null, r2)
    else if c = 't' then (expectChars ['r', 'u', 'e'] r).map fun r2 => (.bool true, r2)
    else if c = 'f' then (expectChars ['a', 'l', 's', 'e'] r).map fun r2 => (.bool false, r2)
    else if c = '"' then (parseStrBody (r.length + 1) r).map fun p => (.str (String.mk p.1), p.2)
    else if c = '[' then
      match skipWs r with
      | [] => none
      | d :: r2 =>
        if d = ']' then some (.arr [], r2)
        else (parseElems f (d :: r2)).map fun p => (.arr p.1, p.2)
    else if c = '{' then
      match skipWs r with
      | [] => none
      | d :: r2 =>
        if d = '}' then some (.obj [], r2)
        else (parseMembers f (d :: r2)).map fun p => (.obj p.1, p.2)
    else if c = '-' then (parseNatNum r).map fun p => (.num (-(p.1 : Int)), p.2)
    else if c.isDigit then (parseNatNum (c :: r)).map fun p => (.num (p.1 : Int), p.2)
    else none

/-- Parse one or more comma-separated array elements, up to and including
the closing bracket. -/
def parseElems : Nat → List Char → Option (List Json × List Char)
  | 0, _ => none
  | f + 1, l =>
    match parseVal f l with
    | none => none
    | some (v, r) =>
      match skipWs r with
      | [] => none
      | d :: r2 =>
        if d = ',' then (parseElems f (skipWs r2)).map fun p => (v :: p.1, p.2)
        else if d = ']' then some ([v], r2)
        else none

/-- Parse one or more comma-separated object members, up to and including
the closing brace. -/
def parseMembers : Nat → List Char → Option (List (String × Json) × List Char)
  | 0, _ => none
  | f + 1, l =>
    match l with
    | [] => none
    | c :: r =>
      if c = '"' then
        match parseStrBody (r.length + 1) r with
        | none => none
        | some (k, r2) =>
          match skipWs r2 with
          | [] => none
          | d :: r3 =>
            if d = ':' then
              match parseVal f (skipWs r3) with
              | none => none
              | some (v, r4) =>
                match skipWs r4 with
                | [] => none
                | d2 :: r5 =>
                  if d2 = ',' then
                    (parseMembers f (skipWs r5)).map fun p => ((String.mk k, v) :: p.1, p.2)
                  else if d2 = '}' then some ([(String.mk k, v)], r5)
                  else none
            else none
      else none

end

/-- Parse a complete JSON document from a string: leading/trailing whitespace
allowed, the whole input must be consumed (`serde_json::from_str`). -/
def Json.parse (s : String) : Option Json :=
  let l := skipWs s.data
  match parseVal (l.length + 1) l with
  | some (v, rest) => if (skipWs rest).isEmpty then some v else none
  | none => none

/-! ## Protocol types (`src/protocol.rs`) -/

/-- `PROTOCOL_VERSION: u8 = 1` from `src/lib.rs`. -/
def PROTOCOL_VERSION : Fin 256 := 1

/-- NDJSON request (`protocol.rs` `Request`).  `v: u8` is modelled as
`Fin 256`; `params: HashMap<String, Value>` as an association list kept in
serialization order. -/
structure Request where
  id : String
  v : Fin 256
  method : String
  params : List (String × Json)
deriving DecidableEq

/-- Error details in a response (`protocol.rs` `ErrorInfo`). -/
structure ErrorInfo where
  code : String
  message : String
  details : Option Json
deriving DecidableEq

/-- Response metadata (`protocol.rs` `ResponseMeta`).  `server_ms: f64` is
modelled as an integer number of milliseconds (floating point is outside the
embedding's scope). -/
structure ResponseMeta where
  server_ms : Int
  protocol_v : Fin 256
deriving DecidableEq

/-- NDJSON response (`protocol.rs` `Response`). -/
structure Response where
  id : String
  ok : Bool
  result : Option Json
  error : Option ErrorInfo
  meta : ResponseMeta
deriving DecidableEq

/-- Serde serialization of `Request`: fields in declaration order. -/
def Request.toJson (r : Request) : Json :=
  .obj [("id", .str r.id), ("v", .num r.v.val), ("method", .str r.method),
        ("params", .obj r.params)]

/-- Serde serialization of `ErrorInfo`: `details` has
`skip_serializing_if = "Option::is_none"`. -/
def ErrorInfo.toJson (e : ErrorInfo) : Json :=
  .obj ([("code", .str e.code), ("message", .str e.message)] ++
    match e.details with
    | some d => [("details", d)]
    | none => [])

/-- Serde serialization of `ResponseMeta`. -/
def ResponseMeta.toJson (m : ResponseMeta) : Json :=
  .obj [("server_ms", .num m.server_ms), ("protocol_v", .num m.protocol_v.val)]

/-- Serde serialization of `Response`: `result` and `error` have
`skip_serializing_if = "Option::is_none"`. -/
def Response.toJson (r : Response) : Json :=
  .obj ([("id", .str r.id), ("ok", .bool r.ok)] ++
    (match r.result with
     | some v => [("result", v)]
     | none => []) ++
    (match r.error with
     | some e => [("error", e.toJson)]
     | none => []) ++
    [("meta", r.meta.toJson)])

/-- `Request::to_ndjson_line`: compact JSON plus a single newline. -/
def Request.to_ndjson_line (r : Request) : String :=
  String.mk r.toJson.render ++ "\n"

/-- `Response::to_ndjson_line`: compact JSON plus a single newline. -/
def Response.to_ndjson_line (r : Response) : String :=
  String.mk r.toJson.render ++ "\n"

/-- Deserialize a JSON value as a Rust `String`. -/
def Json.asStr : Json → Option String
  | .str s => some s
  | _ => none

/-- Deserialize a JSON value as a Rust `bool`. -/
def Json.asBool : Json → Option Bool
  | .bool b => some b
  | _ => none

/-- Deserialize a JSON value as a number (the model's image of `f64`). -/
def Json.asInt : Json → Option Int
  | .num n => some n
  | _ => none

/-- Deserialize a JSON value as a `u8`: must be an integer in range. -/
def Json.asU8 : Json → Option (Fin 256)
  | .num n => if h : 0 ≤ n ∧ n < 256 then some ⟨n.toNat, by omega⟩ else none
  | _ => none

/-- Deserialize a JSON value as a map's entry list (`HashMap<String, Value>`). -/
def Json.asEntries : Json → Option (List (String × Json))
  | .obj kvs => some kvs
  | _ => none

/-- Serde deserialization of `Option<Value>`: JSON `null` is `None`,
anything else is `Some` (never fails). -/
def Json.asOptValue : Json → Option Json
  | .null => none
  | j => some j

/-- Field accumulator for the derived `Request` deserializer. -/
structure ReqAcc where
  id : Option String := none
  v : Option (Fin 256) := none
  method : Option String := none
  params : Option (List (String × Json)) := none

/-- One step of the derived `Request` deserializer: known fields are filled
(duplicates are an error), unknown keys are ignored (serde's default). -/
def reqStep (st : ReqAcc) (kv : String × Json) : Option ReqAcc :=
  if kv.1 = "id" then
    match st.id with
    | some _ => none
    | none => (kv.2.asStr).map fun s => { st with id := some s }
  else if kv.1 = "v" then
    match st.v with
    | some _ => none
    | none => (kv.2.asU8).map fun n => { st with v := some n }
  else if kv.1 = "method" then
    match st.method with
    | some _ => none
    | none => (kv.2.asStr).map fun s => { st with method := some s }
  else if kv.1 = "params" then
    match st.params with
    | some _ => none
    | none => (kv.2.asEntries).map fun ps => { st with params := some ps }
  else some st

/-- Derived `Deserialize` for `Request`: a JSON object; `id`, `v`, `method`
required; `params` has `#[serde(default)]`, so a missing key yields the empty
map. -/
def Request.fromJson (j : Json) : Option Request :=
  match j with
  | .obj kvs =>
    match kvs.foldlM reqStep {} with
    | none => none
    | some st =>
      match st.id, st.v, st.method with
      | some id, some v, some method => some ⟨id, v, method, st.params.getD []⟩
      | _, _, _ => none
  | _ => none

/-- `Request::from_ndjson_line`: `serde_json::from_str`. -/
def Request.from_ndjson_line (s : String) : Option Request :=
  (Json.parse s).bind Request.fromJson

/-- Field accumulator for the derived `ErrorInfo` deserializer. -/
structure ErrAcc where
  code : Option String := none
  message : Option String := none
  details : Option (Option Json) := none

/-- One step of the derived `ErrorInfo` deserializer. -/
def errStep (st : ErrAcc) (kv : String × Json) : Option ErrAcc :=
  if kv.1 = "code" then
    match st.code with
    | some _ => none
    | none => (kv.2.asStr).map fun s => { st with code := some s }
  else if kv.1 = "message" then
    match st.message with
    | some _ => none
    | none => (kv.2.asStr).map fun s => { st with message := some s }
  else if kv.1 = "details" then
    match st.details with
    | some _ => none
    | none => some { st with details := some kv.2.asOptValue }
  else some st

/-- Derived `Deserialize` for `ErrorInfo`: `code` and `message` required;
`details` is an `Option` field, so a missing key yields `None`. -/
def ErrorInfo.fromJson (j : Json) : Option ErrorInfo :=
  match j with
  | .obj kvs =>
    match kvs.foldlM errStep {} with
    | none => none
    | some st =>
      match st.code, st.message with
      | some code, some message => some ⟨code, message, st.details.getD none⟩
      | _, _ => none
  | _ => none

/-- Serde deserialization of `Option<ErrorInfo>`: `null` is `None`, an
object must deserialize as `ErrorInfo`. -/
def Json.asOptError : Json → Option (Option ErrorInfo)
  | .null => some none
  | j => (ErrorInfo.fromJson j).map some

/-- Field accumulator for the derived `ResponseMeta` deserializer. -/
structure MetaAcc where
  server_ms : Option Int := none
  protocol_v : Option (Fin 256) := none

/-- One step of the derived `ResponseMeta` deserializer. -/
def metaStep (st : MetaAcc) (kv : String × Json) : Option MetaAcc :=
  if kv.1 = "server_ms" then
    match st.server_ms with
    | some _ => none
    | none => (kv.2.asInt).map fun n => { st with server_ms := some n }
  else if kv.1 = "protocol_v" then
    match st.protocol_v with
    | some _ => none
    | none => (kv.2.asU8).map fun n => { st with protocol_v := some n }
  else some st

/-- Derived `Deserialize` for `ResponseMeta`: both fields required. -/
def ResponseMeta.fromJson (j : Json) : Option ResponseMeta :=
  match j with
  | .obj kvs =>
    match kvs.foldlM metaStep {} with
    | none => none
    | some st =>
      match st.server_ms, st.protocol_v with
      | some ms, some pv => some ⟨ms, pv⟩
      | _, _ => none
  | _ => none

/-- Field accumulator for the derived `Response` deserializer. -/
structure RespAcc where
  id : Option String := none
  ok : Option Bool := none
  result : Option (Option Json) := none
  error : Option (Option ErrorInfo) := none
  meta : Option ResponseMeta := none

/-- One step of the derived `Response` deserializer. -/
def respStep (st : RespAcc) (kv : String × Json) : Option RespAcc :=
  if kv.1 = "id" then
    match st.id with
    | some _ => none
    | none => (kv.2.asStr).map fun s => { st with id := some s }
  else if kv.1 = "ok" then
    match st.ok with
    | some _ => none
    | none => (kv.2.asBool).map fun b => { st with ok := some b }
  else if kv.1 = "result" then
    match st.result with
    | some _ => none
    | none => some { st with result := some kv.2.asOptValue }
  else if kv.1 = "error" then
    match st.error with
    | some _ => none
    | none => (kv.2.asOptError).map fun e => { st with error := some e }
  else if kv.1 = "meta" then
    match st.meta with
    | some _ => none
    | none => (ResponseMeta.fromJson kv.2).map fun m => { st with meta := some m }
  else some st

/-- Derived `Deserialize` for `Response`: `id`, `ok`, `meta` required;
`result` and `error` are `Option` fields, so missing keys yield `None`. -/
def Response.fromJson (j : Json) : Option Response :=
  match j with
  | .obj kvs =>
    match kvs.foldlM respStep {} with
    | none => none
    | some st =>
      match st.id, st.ok, st.meta with
      | some id, some ok, some meta =>
        some ⟨id, ok, st.result.getD none, st.error.getD none, meta⟩
      | _, _, _ => none
  | _ => none

/-- `Response::from_ndjson_line`: `serde_json::from_str`. -/
def Response.from_ndjson_line (s : String) : Option Response :=
  (Json.parse s).bind Response.fromJson

/-- `Response::success` (`protocol.rs`). -/
def Response.success (id : String) (result : Json) (server_ms : Int) : Response :=
  ⟨id, true, some result, none, ⟨server_ms, PROTOCOL_VERSION⟩⟩

/-- `Response::error` (`protocol.rs`). -/
def Response.mkError (id : String) (code : String) (message : String)
    (server_ms : Int) : Response :=
  ⟨id, false, none, some ⟨code, message, none⟩, ⟨server_ms, PROTOCOL_VERSION⟩⟩

/-- `Response::error_with_details` (`protocol.rs`). -/
def Response.errorWithDetails (id : String) (code : String) (message : String)
    (details : Json) (server_ms : Int) : Response :=
  ⟨id, false, none, some ⟨code, message, some details⟩, ⟨server_ms, PROTOCOL_VERSION⟩⟩

/-- Standard error codes (`protocol.rs` `error_codes`). -/
def INVALID_REQUEST : String := "INVALID_REQUEST"

/-- `error_codes::INTERNAL_ERROR`. -/
def INTERNAL_ERROR : String := "INTERNAL_ERROR"

/-! ## Service contract (`src/service.rs`) and server (`src/server.rs`) -/

/-- Health status for a dependency (`service.rs` `HealthStatus`). -/
structure HealthStatus where
  ok : Bool
  latency_ms : Option Int
  message : Option String
deriving DecidableEq

/-- Serde serialization of `HealthStatus`: `latency_ms` and `message` have
`skip_serializing_if = "Option::is_none"`. -/
def HealthStatus.toJson (h : HealthStatus) : Json :=
  .obj ([("ok", .bool h.ok)] ++
    (match h.latency_ms with
     | some l => [("latency_ms", .num l)]
     | none => []) ++
    (match h.message with
     | some m => [("message", .str m)]
     | none => []))

/-- Parameter documentation (`service.rs` `ParamInfo`). -/
structure ParamInfo where
  name : String
  param_type : String
  required : Bool
  default : Option Json
deriving DecidableEq

/-- Serde serialization of `ParamInfo` (`param_type` renamed to `type`,
`default` skipped when absent). -/
def ParamInfo.toJson (p : ParamInfo) : Json :=
  .obj ([("name", .str p.name), ("type", .str p.param_type),
         ("required", .bool p.required)] ++
    (match p.default with
     | some d => [("default", d)]
     | none => []))

/-- Usage example (`service.rs` `MethodExample`). -/
structure MethodExample where
  description : String
  params : Json
  result : Option Json
deriving DecidableEq

/-- Serde serialization of `MethodExample` (`result` skipped when absent). -/
def MethodExample.toJson (e : MethodExample) : Json :=
  .obj ([("description", .str e.description), ("params", e.params)] ++
    (match e.result with
     | some r => [("result", r)]
     | none => []))

/-- Method documentation (`service.rs` `MethodInfo`). -/
structure MethodInfo where
  name : String
  description : String
  params : List ParamInfo
  schema : Option Json
  returns : Option Json
  examples : List MethodExample
  errors : List String
  deprecated : Bool
deriving DecidableEq

/-- Serde serialization of `MethodInfo`: `schema`/`returns` skipped when
absent, `examples`/`errors` skipped when empty, `params` and `deprecated`
always emitted. -/
def MethodInfo.toJson (m : MethodInfo) : Json :=
  .obj ([("name", .str m.name), ("description", .str m.description),
         ("params", .arr (m.params.map ParamInfo.toJson))] ++
    (match m.schema with
     | some s => [("schema", s)]
     | none => []) ++
    (match m.returns with
     | some r => [("returns", r)]
     | none => []) ++
    (if m.examples.isEmpty then []
     else [("examples", .arr (m.examples.map MethodExample.toJson))]) ++
    (if m.errors.isEmpty then []
     else [("errors", .arr (m.errors.map Json.str))]) ++
    [("deprecated", .bool m.deprecated)])

/-- The `FgpService` trait (`service.rs`), as a record of its operations.
`dispatch` returns `Except String Json`, the image of `anyhow::Result<Value>`
with the failure reduced to its display message (which is all the server
uses).  `method_list` and `health_check` are the overridable accessors. -/
structure FgpService where
  name : String
  version : String
  dispatch : String → List (String × Json) → Except String Json
  method_list : List MethodInfo
  health_check : List (String × HealthStatus)

/-- Runtime quantities of a running server that the handlers read
(`started_at`, `started_at_iso`, `std::process::id()`), threaded as data. -/
structure ServerCtx where
  pid : Int
  started_at_iso : String
  uptime_seconds : Int

/-- Rust `str::contains(char)` on the model's strings. -/
def strContains (s : String) (c : Char) : Bool :=
  s.data.contains c

/-- Rust `str::starts_with(&str)` on the model's strings. -/
def strStartsWith (s p : String) : Bool :=
  p.data.isPrefixOf s.data

/-- Rust `&s[n..]` with `n` the length of a known prefix (character-level;
equivalent to the source's byte slicing whenever the prefix test held). -/
def strDrop (s : String) (n : Nat) : String :=
  String.mk (s.data.drop n)

/-- Character length of a string (stands for the prefix length used by the
source's slice). -/
def strLen (s : String) : Nat :=
  s.data.length

/-- Overall status computation of `handle_health_static`
(`server.rs` lines 346-354): `all` healthy, else `any` healthy is degraded,
else an empty map is healthy, else unhealthy. -/
def healthStatusStr (services : List (String × HealthStatus)) : String :=
  if services.all (fun s => s.2.ok) then "healthy"
  else if services.any (fun s => s.2.ok) then "degraded"
  else if services.isEmpty then "healthy"
  else "unhealthy"

/-- `handle_health_static` (`server.rs`). -/
def handle_health_static (ctx : ServerCtx) (svc : FgpService) (id : String)
    (server_ms : Int) : Response :=
  Response.success id (.obj
    [("status", .str (healthStatusStr svc.health_check)),
     ("pid", .num ctx.pid),
     ("started_at", .str ctx.started_at_iso),
     ("version", .str svc.version),
     ("uptime_seconds", .num ctx.uptime_seconds),
     ("services", .obj (svc.health_check.map fun p => (p.1, p.2.toJson)))])
    server_ms

/-- The three built-in descriptors pushed by `handle_methods_static`. -/
def builtinMethodInfos : List MethodInfo :=
  [⟨"health", "Returns daemon health and status", [], none, none, [], [], false⟩,
   ⟨"stop", "Gracefully shuts down the daemon", [], none, none, [], [], false⟩,
   ⟨"methods", "Lists available methods", [], none, none, [], [], false⟩]

/-- `handle_methods_static` (`server.rs`): built-ins plus the service's
`method_list()`, unqualified custom names prefixed with the namespace. -/
def handle_methods_static (svc : FgpService) (id : String) (server_ms : Int) : Response :=
  let methods := builtinMethodInfos ++ svc.method_list.map fun mi =>
    if strContains mi.name '.' then mi else { mi with name := svc.name ++ "." ++ mi.name }
  Response.success id (.obj [("methods", .arr (methods.map MethodInfo.toJson))]) server_ms

/-- Routing of one already-version-checked request
(`server.rs` `handle_connection_static`, lines 228-306).  Returns the
response and the running flag after the request (`false` only for `stop`).
`server_ms` stands for the elapsed-time measurement. -/
def handleRequest (ctx : ServerCtx) (svc : FgpService) (req : Request)
    (server_ms : Int) : Response × Bool :=
  let method := req.method
  let is_namespaced_for_service := strStartsWith method (svc.name ++ ".")
  let action := if is_namespaced_for_service then
      strDrop method (strLen (svc.name ++ ".")) else method
  if action == "health" && (method == "health" || is_namespaced_for_service) then
    (handle_health_static ctx svc req.id server_ms, true)
  else if action == "stop" && (method == "stop" || is_namespaced_for_service) then
    (Response.success req.id (.obj [("message", .str "Shutting down")]) server_ms, false)
  else if action == "methods" && (method == "methods" || is_namespaced_for_service) then
    (handle_methods_static svc req.id server_ms, true)
  else if strContains method '.' && !is_namespaced_for_service then
    (Response.mkError req.id INVALID_REQUEST
      ("Method namespace must match service '" ++ svc.name ++ "': got '" ++ method ++ "'")
      server_ms, true)
  else
    let dispatch_method := if is_namespaced_for_service then method
      else if strContains method '.' then method
      else svc.name ++ "." ++ method
    match svc.dispatch dispatch_method req.params with
    | .ok result => (Response.success req.id result server_ms, true)
    | .error e => (Response.mkError req.id INTERNAL_ERROR e server_ms, true)

/-- One iteration of the per-connection read loop (`server.rs` lines
188-311): blank lines are skipped without a response; a parse failure yields
an `INVALID_REQUEST` response with the literal id `"null"`; a version
mismatch yields `INVALID_REQUEST` echoing the id; otherwise the request is
routed.  The source interpolates error details into the two messages; the
model keeps their fixed prefixes. -/
def handleLine (ctx : ServerCtx) (svc : FgpService) (line : String)
    (server_ms : Int) : Option Response × Bool :=
  if line.data.all Char.isWhitespace then (none, true)
  else
    match Request.from_ndjson_line line with
    | none =>
      (some (Response.mkError "null" INVALID_REQUEST "Failed to parse request" server_ms), true)
    | some req =>
      if req.v ≠ PROTOCOL_VERSION then
        (some (Response.mkError req.id INVALID_REQUEST "Unsupported protocol version" server_ms),
         true)
      else
        let hr := handleRequest ctx svc req server_ms
        (some hr.1, hr.2)

/-- The per-connection loop over the lines a client sends, until EOF or
until the running flag is cleared after a response is written.  Returns the
responses written and the running flag when the connection handler exits. -/
def connLoop (ctx : ServerCtx) (svc : FgpService) (server_ms : Int) :
    List String → List Response × Bool
  | [] => ([], true)
  | line :: rest =>
    match handleLine ctx svc line server_ms with
    | (none, _) => connLoop ctx svc server_ms rest
    | (some r, true) =>
      let p := connLoop ctx svc server_ms rest
      (r :: p.1, p.2)
    | (some r, false) => ([r], false)

/-- The accept loop of `FgpServer::serve` (lines 109-138), sequentialized:
each incoming connection is first gated on the running flag, then handled;
the flag cleared by one connection stops all later accepts.  (Thread
interleaving is abstracted to this sequential trace.) -/
def acceptLoop (ctx : ServerCtx) (svc : FgpService) (server_ms : Int) :
    Bool → List (List String) → List (List Response) × Bool
  | running, [] => ([], running)
  | running, conn :: rest =>
    if running then
      let p := connLoop ctx svc server_ms conn
      let q := acceptLoop ctx svc server_ms p.2 rest
      (p.1 :: q.1, q.2)
    else ([], false)

/-- Result of `FgpServer::serve`: per-connection outputs and whether the
socket file still exists when `serve` returns. -/
structure ServeResult where
  outputs : List (List Response)
  socketExists : Bool
deriving DecidableEq

/-- `FgpServer::serve` (lines 83-148): run the accept loop, then remove the
socket file (`std::fs::remove_file` before returning). -/
def serve (ctx : ServerCtx) (svc : FgpService) (server_ms : Int)
    (conns : List (List String)) : ServeResult :=
  ⟨(acceptLoop ctx svc server_ms true conns).1, false⟩

/-- Modelled from the spec: a connection attempt on a UNIX socket path
succeeds only while the socket file exists ("after which new connection
attempts to the socket fail (socket removed)"); the operating-system socket
semantics are not part of the repository. -/
def connectAttemptSucceeds (socketExists : Bool) : Bool :=
  socketExists

/-! ## Client (`src/client.rs`) -/

/-- The connect/auto-start path of `FgpClient::send_request` (lines
171-197).  An error is an anyhow chain, outermost context first, root cause
last; `.with_context` pushes a layer.  `connect i` is the result of the
`i`-th `UnixStream::connect` on the socket path; `start_service` is the
`crate::lifecycle::start_service` collaborator. -/
def send_request_connect (auto_start_service : Option String) (path : String)
    (connect : Nat → Except (List String) Unit)
    (start_service : String → Except (List String) Unit) : Except (List String) Unit :=
  match connect 0 with
  | .ok _ => .ok ()
  | .error e =>
    match auto_start_service with
    | some service_name =>
      match start_service service_name with
      | .error se => .error (("Failed to auto-start service '" ++ service_name ++ "'") :: se)
      | .ok _ =>
        match connect 1 with
        | .ok _ => .ok ()
        | .error e2 =>
          .error (("Cannot connect to daemon at " ++ path ++ " after auto-start") :: e2)
    | none => .error (("Cannot connect to daemon at " ++ path) :: e)

/-! ## Auxiliary measures, invariant predicates and fixtures -/

mutual

/-- Fuel lower bound for parsing a rendered value. -/
def Json.size : Json → Nat
  | .null => 1
  | .bool _ => 1
  | .num _ => 1
  | .str _ => 1
  | .arr vs => 1 + sizeElems vs
  | .obj kvs => 1 + sizeMembers kvs

/-- Fuel lower bound, array part. -/
def sizeElems : List Json → Nat
  | [] => 0
  | v :: vs => v.size + 1 + sizeElems vs

/-- Fuel lower bound, object-member part. -/
def sizeMembers : List (String × Json) → Nat
  | [] => 0
  | (_, v) :: kvs => v.size + 1 + sizeMembers kvs

end

/-- The continuation after a rendered value never starts with a digit, so a
rendered number token cannot be extended by what follows. -/
def GoodRest (rest : List Char) : Prop :=
  ∀ c, rest.head? = some c → c.isDigit = false

/-- The pairing invariant of §3: `ok` decides which of `result`/`error` is
present, and never both or neither. -/
def mutualExclusive (r : Response) : Prop :=
  (r.ok = true ↔ (r.result.isSome = true ∧ r.error = none)) ∧
  (r.ok = false ↔ (r.error.isSome = true ∧ r.result = none))

/-- A concrete server context used to instantiate universally quantified
results on concrete inputs. -/
def sampleCtx : ServerCtx :=
  ⟨4242, "2026-10-12T00:00:00Z", 7⟩

/-- A concrete service used to instantiate universally quantified results on
concrete inputs. -/
def sampleSvc : FgpService :=
  ⟨"gmail", "1.0.0", fun _ _ => .ok .null, [], []⟩

/-! ## Round-trip lemmas: numbers -/

theorem digitChar_isDigit : ∀ d : Nat, d < 10 → (Nat.digitChar d).isDigit = true := by decide

theorem digitChar_ne_zero : ∀ d : Nat, 1 ≤ d → d < 10 → Nat.digitChar d ≠ '0' := by decide

theorem digitChar_val : ∀ d : Nat, d < 10 → (Nat.digitChar d).toNat - 48 = d := by decide

theorem natDigitsGo_append :
    ∀ f n acc, n ≤ f → natDigitsGo f n acc = natDigitsGo f n [] ++ acc := by
  intro f
  induction f with
  | zero =>
    intro n acc h
    rw [natDigitsGo, natDigitsGo]
    rfl
  | succ f ih =>
    intro n acc h
    by_cases h10 : n < 10
    · rw [natDigitsGo, if_pos h10, natDigitsGo, if_pos h10]
      rfl
    · have hle : n / 10 ≤ f := by
        have hlt : n / 10 < n := Nat.div_lt_self (by omega) (by omega)
        omega
      rw [natDigitsGo, if_neg h10, natDigitsGo, if_neg h10]
      rw [ih (n / 10) (Nat.digitChar (n % 10) :: acc) hle,
          ih (n / 10) [Nat.digitChar (n % 10)] hle]
      simp

theorem natDigitsGo_mem :
    ∀ f n acc c, n ≤ f → c ∈ natDigitsGo f n acc →
      (∃ d, d < 10 ∧ c = Nat.digitChar d) ∨ c ∈ acc := by
  intro f
  induction f with
  | zero =>
    intro n acc c h hc
    rw [natDigitsGo, List.mem_cons] at hc
    rcases hc with rfl | hc
    · exact Or.inl ⟨n, by omega, rfl⟩
    · exact Or.inr hc
  | succ f ih =>
    intro n acc c h hc
    by_cases h10 : n < 10
    · rw [natDigitsGo, if_pos h10, List.mem_cons] at hc
      rcases hc with rfl | hc
      · exact Or.inl ⟨n, h10, rfl⟩
      · exact Or.inr hc
    · rw [natDigitsGo, if_neg h10] at hc
      have hle : n / 10 ≤ f := by
        have hlt : n / 10 < n := Nat.div_lt_self (by omega) (by omega)
        omega
      rcases ih (n / 10) _ c hle hc with hd | hd
      · exact Or.inl hd
      · rw [List.mem_cons] at hd
        rcases hd with rfl | hd
        · exact Or.inl ⟨n % 10, by omega, rfl⟩
        · exact Or.inr hd

theorem digitsVal_append_singleton (xs : List Char) (d : Char) :
    digitsVal (xs ++ [d]) = 10 * digitsVal xs + (d.toNat - 48) := by
  simp [digitsVal, List.foldl_append]

theorem natDigitsGo_val :
    ∀ f n, n ≤ f → digitsVal (natDigitsGo f n []) = n := by
  intro f
  induction f with
  | zero =>
    intro n h
    interval_cases n
    decide
  | succ f ih =>
    intro n h
    by_cases h10 : n < 10
    · rw [natDigitsGo, if_pos h10]
      have := digitChar_val n h10
      simp [digitsVal]
      omega
    · have hle : n / 10 ≤ f := by
        have hlt : n / 10 < n := Nat.div_lt_self (by omega) (by omega)
        omega
      rw [natDigitsGo, if_neg h10, natDigitsGo_append f (n / 10) _ hle,
        digitsVal_append_singleton, ih (n / 10) hle,
        digitChar_val (n % 10) (by omega)]
      omega

theorem natDigits_val (n : Nat) : digitsVal (natDigits n) = n :=
  natDigitsGo_val n n (Nat.le_refl n)

theorem natDigitsGo_head :
    ∀ f n, n ≤ f → ∃ d t, natDigitsGo f n [] = Nat.digitChar d :: t ∧ d < 10 ∧ (1 ≤ n → 1 ≤ d) := by
  intro f
  induction f with
  | zero =>
    intro n h
    interval_cases n
    exact ⟨0, [], rfl, by omega, by omega⟩
  | succ f ih =>
    intro n h
    by_cases h10 : n < 10
    · exact ⟨n, [], by rw [natDigitsGo, if_pos h10], h10, fun h1 => h1⟩
    · have hle : n / 10 ≤ f := by
        have hlt : n / 10 < n := Nat.div_lt_self (by omega) (by omega)
        omega
      obtain ⟨d, t, heq, hd10, hd1⟩ := ih (n / 10) hle
      refine ⟨d, t ++ [Nat.digitChar (n % 10)], ?_, hd10, fun _ => hd1 (by omega)⟩
      rw [natDigitsGo, if_neg h10, natDigitsGo_append f (n / 10) _ hle, heq]
      simp

theorem natDigits_head (n : Nat) :
    ∃ d t, natDigits n = Nat.digitChar d :: t ∧ d < 10 ∧ (1 ≤ n → 1 ≤ d) :=
  natDigitsGo_head n n (Nat.le_refl n)

theorem natDigits_all_digits (n : Nat) : ∀ c ∈ natDigits n, c.isDigit = true := by
  intro c hc
  rcases natDigitsGo_mem n n [] c (Nat.le_refl n) hc with ⟨d, hd, rfl⟩ | hc
  · exact digitChar_isDigit d hd
  · simp at hc

theorem takeWhile_append_all {p : Char → Bool} :
    ∀ (ds rest : List Char), (∀ c ∈ ds, p c = true) →
      (∀ c, rest.head? = some c → p c = false) →
      (ds ++ rest).takeWhile p = ds ∧ (ds ++ rest).dropWhile p = rest := by
  intro ds
  induction ds with
  | nil =>
    intro rest _ hrest
    cases rest with
    | nil => simp
    | cons c t =>
      have := hrest c rfl
      simp [List.takeWhile, List.dropWhile, this]
  | cons d ds ih =>
    intro rest hds hrest
    have hd := hds d (by simp)
    have := ih rest (fun c hc => hds c (by simp [hc])) hrest
    simp [List.takeWhile, List.dropWhile, hd, this.1, this.2]

theorem natDigits_zero : natDigits 0 = ['0'] := rfl

theorem parseNatNum_natDigits (n : Nat) (rest : List Char)
    (hrest : ∀ c, rest.head? = some c → c.isDigit = false) :
    parseNatNum (natDigits n ++ rest) = some (n, rest) := by
  rcases Nat.eq_zero_or_pos n with rfl | hn
  · rw [natDigits_zero]
    cases rest with
    | nil => simp [parseNatNum]
    | cons c t =>
      have := hrest c rfl
      simp [parseNatNum, this]
  · obtain ⟨d, t, heq, hd10, hd1⟩ := natDigits_head n
    have hne : Nat.digitChar d ≠ '0' := digitChar_ne_zero d (hd1 hn) hd10
    have hdig : (Nat.digitChar d).isDigit = true := digitChar_isDigit d hd10
    have htall : ∀ c ∈ t, c.isDigit = true := by
      intro c hc
      exact natDigits_all_digits n c (by rw [heq]; simp [hc])
    have hsplit := takeWhile_append_all t rest htall (fun c hc => by simpa using hrest c hc)
    rw [heq, List.cons_append]
    simp only [parseNatNum, if_neg hne, if_pos hdig]
    rw [hsplit.1, hsplit.2]
    have hv : digitsVal (Nat.digitChar d :: t) = n := by
      rw [← heq]; exact natDigits_val n
    rw [hv]

/-! ## Round-trip lemmas: strings -/

theorem hexVal_digitChar : ∀ d : Nat, d < 16 → hexVal (Nat.digitChar d) = some d := by decide

theorem mkChar_toNat (c : Char) : mkChar c.toNat = some c := by
  have hv : Nat.isValidChar c.toNat := by
    have := c.valid
    simpa [UInt32.isValidChar] using this
  rw [mkChar, dif_pos hv]
  congr 1

theorem escapeChar_ne_nil (c : Char) : escapeChar c ≠ [] := by
  unfold escapeChar
  split_ifs <;> simp

theorem escapeList_length (cs : List Char) : cs.length ≤ (escapeList cs).length := by
  induction cs with
  | nil => simp [escapeList]
  | cons c cs ih =>
    rw [escapeList]
    have h1 : 1 ≤ (escapeChar c).length := by
      have := escapeChar_ne_nil c
      cases hc : escapeChar c with
      | nil => exact absurd hc this
      | cons x xs => simp
    simp only [List.length_append, List.length_cons]
    omega

theorem parseStrBody_escapeChar (f : Nat) (c : Char) (rest : List Char) :
    parseStrBody (f + 1) (escapeChar c ++ rest) =
      (parseStrBody f rest).map fun p => (c :: p.1, p.2) := by
  by_cases hq : c = '"'
  · subst hq; rfl
  by_cases hb : c = '\\'
  · subst hb; rfl
  by_cases hctrl : c.toNat < 0x20
  · by_cases h1 : c = '\x08'
    · subst h1; rfl
    by_cases h2 : c = '\t'
    · subst h2; rfl
    by_cases h3 : c = '\n'
    · subst h3; rfl
    by_cases h4 : c = '\x0c'
    · subst h4; rfl
    by_cases h5 : c = '\r'
    · subst h5; rfl
    have hesc : escapeChar c =
        ['\\', 'u', '0', '0', Nat.digitChar (c.toNat / 16), Nat.digitChar (c.toNat % 16)] := by
      rw [escapeChar, if_neg hq, if_neg hb, if_pos hctrl, if_neg h1, if_neg h2, if_neg h3,
        if_neg h4, if_neg h5]
    have hhi : hexVal (Nat.digitChar (c.toNat / 16)) = some (c.toNat / 16) :=
      hexVal_digitChar _ (by omega)
    have hlo : hexVal (Nat.digitChar (c.toNat % 16)) = some (c.toNat % 16) :=
      hexVal_digitChar _ (by omega)
    rw [hesc]
    simp only [List.cons_append, List.nil_append]
    rw [parseStrBody]
    rw [if_neg (by decide), if_pos rfl]
    rw [parseEscape]
    rw [if_neg (by decide), if_neg (by decide), if_neg (by decide), if_neg (by decide),
      if_neg (by decide), if_neg (by decide), if_neg (by decide), if_neg (by decide),
      if_pos rfl]
    rw [parseUEscape]
    have h0 : hexVal '0' = some 0 := by decide
    have hn : ((0 * 16 + 0) * 16 + c.toNat / 16) * 16 + c.toNat % 16 = c.toNat := by omega
    simp only [h0, hhi, hlo, hn]
    rw [if_neg (by omega), mkChar_toNat]
    rfl
  · have hesc : escapeChar c = [c] := by
      rw [escapeChar, if_neg hq, if_neg hb, if_neg hctrl]
    rw [hesc]
    simp only [List.cons_append, List.nil_append]
    rw [parseStrBody, if_neg hq, if_neg hb, if_neg hctrl]

theorem parseStrBody_escapeList :
    ∀ (cs : List Char) (f : Nat) (rest : List Char), cs.length ≤ f →
      parseStrBody (f + 1) (escapeList cs ++ '"' :: rest) = some (cs, rest) := by
  intro cs
  induction cs with
  | nil =>
    intro f rest _
    rw [escapeList]
    simp only [List.nil_append]
    rw [parseStrBody, if_pos rfl]
  | cons c cs ih =>
    intro f rest hf
    obtain ⟨f, rfl⟩ : ∃ g, f = g + 1 := by
      cases f with
      | zero => simp at hf
      | succ g => exact ⟨g, rfl⟩
    rw [escapeList, List.append_assoc, parseStrBody_escapeChar,
      ih f rest (by simp at hf; omega)]
    rfl

/-! ## Round-trip lemmas: values -/

theorem Json.size_pos (v : Json) : 1 ≤ v.size := by
  cases v <;> simp [Json.size] <;> omega

theorem goodRest_nil : GoodRest [] := fun c h => by simp at h

theorem goodRest_comma (t : List Char) : GoodRest (',' :: t) := by
  intro c h
  simp at h
  subst h
  decide

theorem goodRest_rbracket (t : List Char) : GoodRest (']' :: t) := by
  intro c h
  simp at h
  subst h
  decide

theorem goodRest_rbrace (t : List Char) : GoodRest ('}' :: t) := by
  intro c h
  simp at h
  subst h
  decide

theorem goodRest_newline (t : List Char) : GoodRest ('\n' :: t) := by
  intro c h
  simp at h
  subst h
  decide

/-- One-step unfolding of `parseVal` (stated by `rfl`; the mutual definition
reduces definitionally on `f + 1` and a cons). -/
theorem parseVal_succ (f : Nat) (c : Char) (r : List Char) :
    parseVal (f + 1) (c :: r) =
      (if c = 'n' then (expectChars ['u', 'l', 'l'] r).map fun r2 => (.null, r2)
      else if c = 't' then (expectChars ['r', 'u', 'e'] r).map fun r2 => (.bool true, r2)
      else if c = 'f' then (expectChars ['a', 'l', 's', 'e'] r).map fun r2 => (.bool false, r2)
      else if c = '"' then
        (parseStrBody (r.length + 1) r).map fun p => (.str (String.mk p.1), p.2)
      else if c = '[' then
        match skipWs r with
        | [] => none
        | d :: r2 =>
          if d = ']' then some (.arr [], r2)
          else (parseElems f (d :: r2)).map fun p => (.arr p.1, p.2)
      else if c = '{' then
        match skipWs r with
        | [] => none
        | d :: r2 =>
          if d = '}' then some (.obj [], r2)
          else (parseMembers f (d :: r2)).map fun p => (.obj p.1, p.2)
      else if c = '-' then (parseNatNum r).map fun p => (.num (-(p.1 : Int)), p.2)
      else if c.isDigit then (parseNatNum (c :: r)).map fun p => (.num (p.1 : Int), p.2)
      else none) := rfl

/-- One-step unfolding of `parseElems`. -/
theorem parseElems_succ (f : Nat) (l : List Char) :
    parseElems (f + 1) l =
      (match parseVal f l with
      | none => none
      | some (v, r) =>
        match skipWs r with
        | [] => none
        | d :: r2 =>
          if d = ',' then (parseElems f (skipWs r2)).map fun p => (v :: p.1, p.2)
          else if d = ']' then some ([v], r2)
          else none) := rfl

/-- One-step unfolding of `parseMembers`. -/
theorem parseMembers_succ (f : Nat) (l : List Char) :
    parseMembers (f + 1) l =
      (match l with
      | [] => none
      | c :: r =>
        if c = '"' then
          match parseStrBody (r.length + 1) r with
          | none => none
          | some (k, r2) =>
            match skipWs r2 with
            | [] => none
            | d :: r3 =>
              if d = ':' then
                match parseVal f (skipWs r3) with
                | none => none
                | some (v, r4) =>
                  match skipWs r4 with
                  | [] => none
                  | d2 :: r5 =>
                    if d2 = ',' then
                      (parseMembers f (skipWs r5)).map fun p => ((String.mk k, v) :: p.1, p.2)
                    else if d2 = '}' then some ([(String.mk k, v)], r5)
                    else none
              else none
        else none) := rfl

theorem skipWs_cons_not_ws (c : Char) (l : List Char) (h : isWs c = false) :
    skipWs (c :: l) = c :: l := by
  simp [skipWs, List.dropWhile_cons, h]

theorem isDigit_ne (c : Char) (h : c.isDigit = true) :
    c ≠ 'n' ∧ c ≠ 't' ∧ c ≠ 'f' ∧ c ≠ '"' ∧ c ≠ '[' ∧ c ≠ '{' ∧ c ≠ '-' := by
  refine ⟨?_, ?_, ?_, ?_, ?_, ?_, ?_⟩
  all_goals (rintro rfl; exact absurd h (by decide))

theorem digitChar_aux : ∀ d : Nat, d < 10 →
    isWs (Nat.digitChar d) = false ∧ Nat.digitChar d ≠ ']' ∧ Nat.digitChar d ≠ '}' := by
  decide

/-- Every rendered value starts with a non-whitespace character that is
neither `]` nor `}`. -/
theorem render_head (v : Json) :
    ∃ c t, Json.render v = c :: t ∧ isWs c = false ∧ c ≠ ']' ∧ c ≠ '}' := by
  cases v with
  | num n =>
    show ∃ c t, intRender n = c :: t ∧ _
    rw [intRender]
    by_cases hneg : n < 0
    · rw [if_pos hneg]
      refine ⟨'-', _, rfl, ?_, ?_, ?_⟩ <;> decide
    · rw [if_neg hneg]
      obtain ⟨d, t, heq, hd10, _⟩ := natDigits_head n.toNat
      obtain ⟨hw, hb1, hb2⟩ := digitChar_aux d hd10
      exact ⟨Nat.digitChar d, t, heq, hw, hb1, hb2⟩
  | bool b => cases b <;> refine ⟨_, _, rfl, ?_, ?_, ?_⟩ <;> decide
  | null => refine ⟨_, _, rfl, ?_, ?_, ?_⟩ <;> decide
  | str s => refine ⟨_, _, rfl, ?_, ?_, ?_⟩ <;> decide
  | arr vs => refine ⟨_, _, rfl, ?_, ?_, ?_⟩ <;> decide
  | obj kvs => refine ⟨_, _, rfl, ?_, ?_, ?_⟩ <;> decide

theorem rt_null (f : Nat) (rest : List Char) (hf : (Json.null).size ≤ f) :
    parseVal f (Json.render .null ++ rest) = some (.null, rest) := by
  cases f with
  | zero => simp [Json.size] at hf
  | succ f => rfl

theorem rt_bool (b : Bool) (f : Nat) (rest : List Char) (hf : (Json.bool b).size ≤ f) :
    parseVal f (Json.render (.bool b) ++ rest) = some (.bool b, rest) := by
  cases f with
  | zero => simp [Json.size] at hf
  | succ f => cases b <;> rfl

theorem rt_num (n : Int) (f : Nat) (rest : List Char) (hf : (Json.num n).size ≤ f)
    (hrest : GoodRest rest) :
    parseVal f (Json.render (.num n) ++ rest) = some (.num n, rest) := by
  cases f with
  | zero => simp [Json.size] at hf
  | succ f =>
    show parseVal (f + 1) (intRender n ++ rest) = some (.num n, rest)
    rw [intRender]
    by_cases hneg : n < 0
    · rw [if_pos hneg, List.cons_append, parseVal_succ,
        if_neg (by decide), if_neg (by decide), if_neg (by decide), if_neg (by decide),
        if_neg (by decide), if_neg (by decide), if_pos rfl,
        parseNatNum_natDigits _ rest hrest]
      have : (((-n).toNat : Int)) = -n := Int.toNat_of_nonneg (by omega)
      simp [this]
    · rw [if_neg hneg]
      obtain ⟨d, t, heq, hd10, _⟩ := natDigits_head n.toNat
      have hdig := digitChar_isDigit d hd10
      obtain ⟨hn1, hn2, hn3, hn4, hn5, hn6, hn7⟩ := isDigit_ne _ hdig
      rw [heq, List.cons_append, parseVal_succ,
        if_neg hn1, if_neg hn2, if_neg hn3, if_neg hn4, if_neg hn5, if_neg hn6, if_neg hn7,
        if_pos hdig, ← List.cons_append, ← heq, parseNatNum_natDigits _ rest hrest]
      have : ((n.toNat : Int)) = n := Int.toNat_of_nonneg (by omega)
      simp [this]

theorem rt_str (s : String) (f : Nat) (rest : List Char) (hf : (Json.str s).size ≤ f) :
    parseVal f (Json.render (.str s) ++ rest) = some (.str s, rest) := by
  cases f with
  | zero => simp [Json.size] at hf
  | succ f =>
    show parseVal (f + 1) (renderStr s ++ rest) = some (.str s, rest)
    rw [renderStr]
    simp only [List.cons_append, List.append_assoc, List.singleton_append, List.nil_append]
    rw [parseVal_succ,
      if_neg (by decide), if_neg (by decide), if_neg (by decide), if_pos rfl]
    have hlen : s.data.length ≤ (escapeList s.data ++ '"' :: rest).length := by
      have := escapeList_length s.data
      simp only [List.length_append, List.length_cons]
      omega
    rw [parseStrBody_escapeList s.data _ rest hlen]
    rfl

theorem renderElems_one (v : Json) : renderElems [v] = v.render := rfl

theorem renderElems_cons2 (v w : Json) (ws : List Json) :
    renderElems (v :: w :: ws) = v.render ++ ',' :: renderElems (w :: ws) := rfl

theorem renderMembers_one (k : String) (v : Json) :
    renderMembers [(k, v)] = renderStr k ++ ':' :: v.render := rfl

theorem renderMembers_cons2 (k : String) (v : Json) (m : String × Json)
    (ms : List (String × Json)) :
    renderMembers ((k, v) :: m :: ms) =
      renderStr k ++ ':' :: v.render ++ ',' :: renderMembers (m :: ms) := rfl

theorem renderElems_head (v : Json) (vs : List Json) :
    ∃ c t, renderElems (v :: vs) = c :: t ∧ isWs c = false ∧ c ≠ ']' ∧ c ≠ '}' := by
  obtain ⟨c, t, hhead, h1, h2, h3⟩ := render_head v
  cases vs with
  | nil => exact ⟨c, t, by rw [renderElems_one, hhead], h1, h2, h3⟩
  | cons w ws =>
    exact ⟨c, t ++ ',' :: renderElems (w :: ws), by
      rw [renderElems_cons2, hhead, List.cons_append], h1, h2, h3⟩

theorem renderMembers_head (k : String) (v : Json) (kvs : List (String × Json)) :
    ∃ t, renderMembers ((k, v) :: kvs) = '"' :: t := by
  cases kvs with
  | nil =>
    refine ⟨escapeList k.data ++ '"' :: ':' :: v.render, ?_⟩
    rw [renderMembers_one, renderStr]
    simp only [List.cons_append, List.append_assoc, List.singleton_append, List.nil_append]
  | cons m ms =>
    obtain ⟨k2, v2⟩ := m
    refine ⟨escapeList k.data ++ '"' :: ':' :: (v.render ++ ',' :: renderMembers ((k2, v2) :: ms)), ?_⟩
    rw [renderMembers_cons2, renderStr]
    simp only [List.cons_append, List.append_assoc, List.singleton_append, List.nil_append]

/-- A rendered member list, followed by the closing brace, parses back, with
enough fuel (specialized one-step expansion of `parseMembers` at a quote). -/
theorem parseMembers_quote (f : Nat) (r : List Char) :
    parseMembers (f + 1) ('"' :: r) =
      (match parseStrBody (r.length + 1) r with
      | none => none
      | some (k, r2) =>
        match skipWs r2 with
        | [] => none
        | d :: r3 =>
          if d = ':' then
            match parseVal f (skipWs r3) with
            | none => none
            | some (v, r4) =>
              match skipWs r4 with
              | [] => none
              | d2 :: r5 =>
                if d2 = ',' then
                  (parseMembers f (skipWs r5)).map fun p => ((String.mk k, v) :: p.1, p.2)
                else if d2 = '}' then some ([(String.mk k, v)], r5)
                else none
          else none) := rfl

theorem roundtrip_three :
    (∀ v : Json, ∀ f rest, v.size ≤ f → GoodRest rest →
      parseVal f (v.render ++ rest) = some (v, rest)) ∧
    (∀ vs : List Json, ∀ f rest, sizeElems vs ≤ f → GoodRest rest → vs ≠ [] →
      parseElems f (renderElems vs ++ ']' :: rest) = some (vs, rest)) ∧
    (∀ kvs : List (String × Json), ∀ f rest, sizeMembers kvs ≤ f → GoodRest rest → kvs ≠ [] →
      parseMembers f (renderMembers kvs ++ '}' :: rest) = some (kvs, rest)) := by
  have hnull : ∀ f rest, (Json.null).size ≤ f → GoodRest rest →
      parseVal f (Json.render .null ++ rest) = some (.null, rest) :=
    fun f rest hf _ => rt_null f rest hf
  have hbool : ∀ b f rest, (Json.bool b).size ≤ f → GoodRest rest →
      parseVal f (Json.render (.bool b) ++ rest) = some (.bool b, rest) :=
    fun b f rest hf _ => rt_bool b f rest hf
  have hnum : ∀ n f rest, (Json.num n).size ≤ f → GoodRest rest →
      parseVal f (Json.render (.num n) ++ rest) = some (.num n, rest) :=
    fun n f rest hf hr => rt_num n f rest hf hr
  have hstr : ∀ s f rest, (Json.str s).size ≤ f → GoodRest rest →
      parseVal f (Json.render (.str s) ++ rest) = some (.str s, rest) :=
    fun s f rest hf _ => rt_str s f rest hf
  have harr : ∀ vs,
      (∀ f rest, sizeElems vs ≤ f → GoodRest rest → vs ≠ [] →
        parseElems f (renderElems vs ++ ']' :: rest) = some (vs, rest)) →
      ∀ f rest, (Json.arr vs).size ≤ f → GoodRest rest →
        parseVal f (Json.render (.arr vs) ++ rest) = some (.arr vs, rest) := by
    intro vs ihQ f rest hf hrest
    cases f with
    | zero => simp [Json.size] at hf
    | succ f =>
      have hsz : sizeElems vs ≤ f := by
        simp [Json.size] at hf
        omega
      show parseVal (f + 1) (('[' :: (renderElems vs ++ [']'])) ++ rest) = some (.arr vs, rest)
      simp only [List.cons_append, List.append_assoc, List.singleton_append, List.nil_append]
      rw [parseVal_succ, if_neg (by decide), if_neg (by decide), if_neg (by decide),
        if_neg (by decide), if_pos rfl]
      cases vs with
      | nil => rfl
      | cons v vs' =>
        obtain ⟨c, t2, hh2, hws, hbr, _⟩ := renderElems_head v vs'
        rw [hh2, List.cons_append, skipWs_cons_not_ws _ _ hws]
        show (if c = ']' then some (Json.arr [], t2 ++ ']' :: rest)
          else (parseElems f (c :: (t2 ++ ']' :: rest))).map fun p => (Json.arr p.1, p.2)) =
          some (Json.arr (v :: vs'), rest)
        rw [if_neg hbr, ← List.cons_append, ← hh2, ihQ f rest hsz hrest (by simp)]
        rfl
  have hobj : ∀ kvs,
      (∀ f rest, sizeMembers kvs ≤ f → GoodRest rest → kvs ≠ [] →
        parseMembers f (renderMembers kvs ++ '}' :: rest) = some (kvs, rest)) →
      ∀ f rest, (Json.obj kvs).size ≤ f → GoodRest rest →
        parseVal f (Json.render (.obj kvs) ++ rest) = some (.obj kvs, rest) := by
    intro kvs ihR f rest hf hrest
    cases f with
    | zero => simp [Json.size] at hf
    | succ f =>
      have hsz : sizeMembers kvs ≤ f := by
        simp [Json.size] at hf
        omega
      show parseVal (f + 1) (('{' :: (renderMembers kvs ++ ['}'])) ++ rest) = some (.obj kvs, rest)
      simp only [List.cons_append, List.append_assoc, List.singleton_append, List.nil_append]
      rw [parseVal_succ, if_neg (by decide), if_neg (by decide), if_neg (by decide),
        if_neg (by decide), if_neg (by decide), if_pos rfl]
      cases kvs with
      | nil => rfl
      | cons m kvs' =>
        obtain ⟨k, v⟩ := m
        obtain ⟨t2, hh2⟩ := renderMembers_head k v kvs'
        rw [hh2, List.cons_append, skipWs_cons_not_ws _ _ (by decide)]
        show (if '"' = '}' then some (Json.obj [], t2 ++ '}' :: rest)
          else (parseMembers f ('"' :: (t2 ++ '}' :: rest))).map fun p => (Json.obj p.1, p.2)) =
          some (Json.obj ((k, v) :: kvs'), rest)
        rw [if_neg (by decide), ← List.cons_append, ← hh2, ihR f rest hsz hrest (by simp)]
        rfl
  have hqnil : ∀ f rest, sizeElems [] ≤ f → GoodRest rest → ([] : List Json) ≠ [] →
      parseElems f (renderElems [] ++ ']' :: rest) = some ([], rest) := by
    intro f rest _ _ h
    exact absurd rfl h
  have hqcons : ∀ v vs,
      (∀ f rest, v.size ≤ f → GoodRest rest → parseVal f (v.render ++ rest) = some (v, rest)) →
      (∀ f rest, sizeElems vs ≤ f → GoodRest rest → vs ≠ [] →
        parseElems f (renderElems vs ++ ']' :: rest) = some (vs, rest)) →
      ∀ f rest, sizeElems (v :: vs) ≤ f → GoodRest rest → (v :: vs) ≠ [] →
        parseElems f (renderElems (v :: vs) ++ ']' :: rest) = some (v :: vs, rest) := by
    intro v vs ihv ihs f rest hf hrest _
    have heq : sizeElems (v :: vs) = v.size + 1 + sizeElems vs := rfl
    have hpos := Json.size_pos v
    cases f with
    | zero => omega
    | succ f =>
      have hszv : v.size ≤ f ∧ sizeElems vs ≤ f := by omega
      cases vs with
      | nil =>
        rw [renderElems_one, parseElems_succ,
          ihv f (']' :: rest) hszv.1 (goodRest_rbracket rest)]
        rfl
      | cons w ws =>
        rw [renderElems_cons2, List.append_assoc, List.cons_append, parseElems_succ,
          ihv f _ hszv.1 (goodRest_comma _)]
        show (parseElems f (skipWs (renderElems (w :: ws) ++ ']' :: rest))).map
            (fun p => (v :: p.1, p.2)) = some (v :: w :: ws, rest)
        obtain ⟨c, t2, hh2, hws, _, _⟩ := renderElems_head w ws
        rw [hh2, List.cons_append, skipWs_cons_not_ws _ _ hws, ← List.cons_append, ← hh2,
          ihs f rest hszv.2 hrest (by simp)]
        rfl
  have hrnil : ∀ f rest, sizeMembers [] ≤ f → GoodRest rest →
      ([] : List (String × Json)) ≠ [] →
      parseMembers f (renderMembers [] ++ '}' :: rest) = some ([], rest) := by
    intro f rest _ _ h
    exact absurd rfl h
  have hrcons : ∀ k v kvs,
      (∀ f rest, v.size ≤ f → GoodRest rest → parseVal f (v.render ++ rest) = some (v, rest)) →
      (∀ f rest, sizeMembers kvs ≤ f → GoodRest rest → kvs ≠ [] →
        parseMembers f (renderMembers kvs ++ '}' :: rest) = some (kvs, rest)) →
      ∀ f rest, sizeMembers ((k, v) :: kvs) ≤ f → GoodRest rest → ((k, v) :: kvs) ≠ [] →
        parseMembers f (renderMembers ((k, v) :: kvs) ++ '}' :: rest) =
          some ((k, v) :: kvs, rest) := by
    intro k v kvs ihv ihs f rest hf hrest _
    have heq : sizeMembers ((k, v) :: kvs) = v.size + 1 + sizeMembers kvs := rfl
    have hpos := Json.size_pos v
    cases f with
    | zero => omega
    | succ f =>
      have hszv : v.size ≤ f ∧ sizeMembers kvs ≤ f := by omega
      cases kvs with
      | nil =>
        rw [renderMembers_one, renderStr]
        simp only [List.cons_append, List.append_assoc, List.singleton_append, List.nil_append]
        rw [parseMembers_quote]
        have hlen : k.data.length ≤
            (escapeList k.data ++ '"' :: ':' :: (v.render ++ '}' :: rest)).length := by
          have := escapeList_length k.data
          simp only [List.length_append, List.length_cons]
          omega
        rw [parseStrBody_escapeList k.data _ _ hlen]
        show (match parseVal f (skipWs (v.render ++ '}' :: rest)) with
          | none => none
          | some (v2, r4) =>
            match skipWs r4 with
            | [] => none
            | d2 :: r5 =>
              if d2 = ',' then
                (parseMembers f (skipWs r5)).map fun p => ((String.mk k.data, v2) :: p.1, p.2)
              else if d2 = '}' then some ([(String.mk k.data, v2)], r5)
              else none) = some ([(k, v)], rest)
        obtain ⟨c, t2, hh2, hws, _, _⟩ := render_head v
        rw [hh2, List.cons_append, skipWs_cons_not_ws _ _ hws, ← List.cons_append, ← hh2,
          ihv f ('}' :: rest) hszv.1 (goodRest_rbrace rest)]
        rfl
      | cons m kvs' =>
        obtain ⟨k2, v2⟩ := m
        rw [renderMembers_cons2, renderStr]
        simp only [List.cons_append, List.append_assoc, List.singleton_append, List.nil_append]
        rw [parseMembers_quote]
        have hlen : k.data.length ≤
            (escapeList k.data ++
              '"' :: ':' :: (v.render ++ ',' :: (renderMembers ((k2, v2) :: kvs') ++
                '}' :: rest))).length := by
          have := escapeList_length k.data
          simp only [List.length_append, List.length_cons]
          omega
        rw [parseStrBody_escapeList k.data _ _ hlen]
        show (match parseVal f (skipWs (v.render ++ ',' ::
              (renderMembers ((k2, v2) :: kvs') ++ '}' :: rest))) with
          | none => none
          | some (w, r4) =>
            match skipWs r4 with
            | [] => none
            | d2 :: r5 =>
              if d2 = ',' then
                (parseMembers f (skipWs r5)).map fun p => ((String.mk k.data, w) :: p.1, p.2)
              else if d2 = '}' then some ([(String.mk k.data, w)], r5)
              else none) = some ((k, v) :: (k2, v2) :: kvs', rest)
        obtain ⟨c, t2, hh2, hws, _, _⟩ := render_head v
        rw [hh2, List.cons_append, skipWs_cons_not_ws _ _ hws, ← List.cons_append, ← hh2,
          ihv f _ hszv.1 (goodRest_comma _)]
        show (parseMembers f (skipWs (renderMembers ((k2, v2) :: kvs') ++ '}' :: rest))).map
            (fun p => ((String.mk k.data, v) :: p.1, p.2)) =
          some ((k, v) :: (k2, v2) :: kvs', rest)
        obtain ⟨t3, hh3⟩ := renderMembers_head k2 v2 kvs'
        rw [hh3, List.cons_append, skipWs_cons_not_ws _ _ (by decide), ← List.cons_append, ← hh3,
          ihs f rest hszv.2 hrest (by simp)]
        rfl
  refine ⟨Json.recAll hnull hbool hnum hstr harr hobj hqnil hqcons hrnil hrcons,
    Json.recAllElems hnull hbool hnum hstr harr hobj hqnil hqcons hrnil hrcons,
    Json.recAllMembers hnull hbool hnum hstr harr hobj hqnil hqcons hrnil hrcons⟩

theorem natDigits_ne_nil (n : Nat) : natDigits n ≠ [] := by
  obtain ⟨d, t, heq, _, _⟩ := natDigits_head n
  rw [heq]
  simp

theorem intRender_length_pos (n : Int) : 1 ≤ (intRender n).length := by
  rw [intRender]
  by_cases h : n < 0
  · rw [if_pos h]
    simp
  · rw [if_neg h]
    have := natDigits_ne_nil n.toNat
    cases hc : natDigits n.toNat with
    | nil => exact absurd hc this
    | cons x xs => simp [hc]

theorem size_le_render :
    (∀ v : Json, v.size ≤ v.render.length) ∧
    (∀ vs : List Json, sizeElems vs ≤ (renderElems vs).length + 1) ∧
    (∀ kvs : List (String × Json), sizeMembers kvs ≤ (renderMembers kvs).length + 1) := by
  have hnull : (Json.null).size ≤ (Json.render .null).length := by decide
  have hbool : ∀ b, (Json.bool b).size ≤ (Json.render (.bool b)).length := by decide
  have hnum : ∀ n, (Json.num n).size ≤ (Json.render (.num n)).length := by
    intro n
    show (Json.num n).size ≤ (intRender n).length
    have := intRender_length_pos n
    simp [Json.size]
    omega
  have hstr : ∀ s, (Json.str s).size ≤ (Json.render (.str s)).length := by
    intro s
    show (Json.str s).size ≤ (renderStr s).length
    simp [Json.size, renderStr]
  have harr : ∀ vs, sizeElems vs ≤ (renderElems vs).length + 1 →
      (Json.arr vs).size ≤ (Json.render (.arr vs)).length := by
    intro vs ih
    show 1 + sizeElems vs ≤ ('[' :: (renderElems vs ++ [']'])).length
    simp only [List.length_cons, List.length_append, List.length_singleton]
    omega
  have hobj : ∀ kvs, sizeMembers kvs ≤ (renderMembers kvs).length + 1 →
      (Json.obj kvs).size ≤ (Json.render (.obj kvs)).length := by
    intro kvs ih
    show 1 + sizeMembers kvs ≤ ('{' :: (renderMembers kvs ++ ['}'])).length
    simp only [List.length_cons, List.length_append, List.length_singleton]
    omega
  have hqnil : sizeElems [] ≤ (renderElems []).length + 1 := by decide
  have hqcons : ∀ v vs, v.size ≤ v.render.length →
      sizeElems vs ≤ (renderElems vs).length + 1 →
      sizeElems (v :: vs) ≤ (renderElems (v :: vs)).length + 1 := by
    intro v vs ihv ihs
    have heq : sizeElems (v :: vs) = v.size + 1 + sizeElems vs := rfl
    cases vs with
    | nil =>
      rw [heq, renderElems_one]
      have : sizeElems [] = 0 := rfl
      omega
    | cons w ws =>
      rw [heq, renderElems_cons2]
      simp only [List.length_append, List.length_cons]
      omega
  have hrnil : sizeMembers [] ≤ (renderMembers []).length + 1 := by decide
  have hrcons : ∀ k v kvs, v.size ≤ v.render.length →
      sizeMembers kvs ≤ (renderMembers kvs).length + 1 →
      sizeMembers ((k, v) :: kvs) ≤ (renderMembers ((k, v) :: kvs)).length + 1 := by
    intro k v kvs ihv ihs
    have heq : sizeMembers ((k, v) :: kvs) = v.size + 1 + sizeMembers kvs := rfl
    cases kvs with
    | nil =>
      rw [heq, renderMembers_one]
      have h0 : sizeMembers [] = 0 := rfl
      simp only [List.length_append, List.length_cons, renderStr]
      omega
    | cons m ms =>
      rw [heq, renderMembers_cons2]
      simp only [List.length_append, List.length_cons, renderStr]
      omega
  exact ⟨Json.recAll hnull hbool hnum hstr harr hobj hqnil hqcons hrnil hrcons,
    Json.recAllElems hnull hbool hnum hstr harr hobj hqnil hqcons hrnil hrcons,
    Json.recAllMembers hnull hbool hnum hstr harr hobj hqnil hqcons hrnil hrcons⟩

/-- Top-level parse of a rendered value followed by a benign suffix
(`serde_json::from_str` accepts trailing whitespace). -/
theorem Json.parse_render_suffix (v : Json) (suffix : List Char)
    (h1 : GoodRest suffix) (h2 : skipWs suffix = []) :
    Json.parse (String.mk (v.render ++ suffix)) = some v := by
  have hskip : skipWs (v.render ++ suffix) = v.render ++ suffix := by
    obtain ⟨c, t, hhead, hws, _, _⟩ := render_head v
    rw [hhead, List.cons_append, skipWs_cons_not_ws _ _ hws]
  show Json.parse (String.mk (v.render ++ suffix)) = some v
  rw [Json.parse]
  rw [hskip]
  have hf : v.size ≤ (v.render ++ suffix).length + 1 := by
    have := size_le_render.1 v
    simp only [List.length_append]
    omega
  rw [roundtrip_three.1 v _ suffix hf h1]
  show (if (skipWs suffix).isEmpty = true then some v else none) = some v
  rw [h2]
  rfl

/-! ## No raw newline in rendered output -/

theorem digitChar_ne_newline : ∀ d : Nat, d < 16 → Nat.digitChar d ≠ '\n' := by decide

theorem escapeChar_no_newline (c : Char) : '\n' ∉ escapeChar c := by
  intro hx
  rw [escapeChar] at hx
  split_ifs at hx with h1 h2 h3 h4 h5 h6 h7 h8
  · exact absurd hx (by decide)
  · exact absurd hx (by decide)
  · exact absurd hx (by decide)
  · exact absurd hx (by decide)
  · exact absurd hx (by decide)
  · exact absurd hx (by decide)
  · exact absurd hx (by decide)
  · simp only [List.mem_cons, List.not_mem_nil, or_false] at hx
    rcases hx with hx | hx | hx | hx | hx | hx
    · exact absurd hx (by decide)
    · exact absurd hx (by decide)
    · exact absurd hx (by decide)
    · exact absurd hx (by decide)
    · exact digitChar_ne_newline _ (by omega) hx.symm
    · exact digitChar_ne_newline _ (by omega) hx.symm
  · simp only [List.mem_cons, List.not_mem_nil, or_false] at hx
    subst hx
    exact h3 (by decide)

theorem escapeList_no_newline (cs : List Char) : '\n' ∉ escapeList cs := by
  induction cs with
  | nil => simp [escapeList]
  | cons c cs ih =>
    rw [escapeList]
    intro hx
    rw [List.mem_append] at hx
    rcases hx with hx | hx
    · exact escapeChar_no_newline c hx
    · exact ih hx

theorem natDigits_no_newline (m : Nat) : '\n' ∉ natDigits m := by
  intro hy
  rcases natDigitsGo_mem m m [] '\n' (Nat.le_refl m) hy with ⟨d, hd, heq⟩ | hy
  · exact digitChar_ne_newline d (by omega) heq.symm
  · simp at hy

theorem intRender_no_newline (n : Int) : '\n' ∉ intRender n := by
  intro hx
  rw [intRender] at hx
  split_ifs at hx
  · rw [List.mem_cons] at hx
    rcases hx with hx | hx
    · exact absurd hx (by decide)
    · exact natDigits_no_newline _ hx
  · exact natDigits_no_newline _ hx

theorem renderStr_no_newline (s : String) : '\n' ∉ renderStr s := by
  intro hx
  rw [renderStr] at hx
  rcases List.mem_cons.mp hx with hx | hx
  · exact absurd hx (by decide)
  · rcases List.mem_append.mp hx with hx | hx
    · exact escapeList_no_newline s.data hx
    · simp at hx

theorem render_no_newline :
    (∀ v : Json, '\n' ∉ v.render) ∧
    (∀ vs : List Json, '\n' ∉ renderElems vs) ∧
    (∀ kvs : List (String × Json), '\n' ∉ renderMembers kvs) := by
  have hnull : '\n' ∉ Json.render .null := by decide
  have hbool : ∀ b, '\n' ∉ Json.render (.bool b) := by decide
  have hnum : ∀ n, '\n' ∉ Json.render (.num n) := fun n => intRender_no_newline n
  have hstr : ∀ s, '\n' ∉ Json.render (.str s) := fun s => renderStr_no_newline s
  have harr : ∀ vs, '\n' ∉ renderElems vs → '\n' ∉ Json.render (.arr vs) := by
    intro vs ih hx
    have heq : Json.render (.arr vs) = '[' :: (renderElems vs ++ [']']) := rfl
    rw [heq] at hx
    rcases List.mem_cons.mp hx with hx | hx
    · exact absurd hx (by decide)
    · rcases List.mem_append.mp hx with hx | hx
      · exact ih hx
      · simp at hx
  have hobj : ∀ kvs, '\n' ∉ renderMembers kvs → '\n' ∉ Json.render (.obj kvs) := by
    intro kvs ih hx
    have heq : Json.render (.obj kvs) = '{' :: (renderMembers kvs ++ ['}']) := rfl
    rw [heq] at hx
    rcases List.mem_cons.mp hx with hx | hx
    · exact absurd hx (by decide)
    · rcases List.mem_append.mp hx with hx | hx
      · exact ih hx
      · simp at hx
  have hqnil : '\n' ∉ renderElems ([] : List Json) := by
    intro hx
    simp [renderElems] at hx
  have hqcons : ∀ v vs, '\n' ∉ v.render → '\n' ∉ renderElems vs →
      '\n' ∉ renderElems (v :: vs) := by
    intro v vs ihv ihs hx
    cases vs with
    | nil => exact ihv (by rwa [renderElems_one] at hx)
    | cons w ws =>
      rw [renderElems_cons2] at hx
      rcases List.mem_append.mp hx with hx | hx
      · exact ihv hx
      · rcases List.mem_cons.mp hx with hx | hx
        · exact absurd hx (by decide)
        · exact ihs hx
  have hrnil : '\n' ∉ renderMembers ([] : List (String × Json)) := by
    intro hx
    simp [renderMembers] at hx
  have hrcons : ∀ k v kvs, '\n' ∉ v.render → '\n' ∉ renderMembers kvs →
      '\n' ∉ renderMembers ((k, v) :: kvs) := by
    intro k v kvs ihv ihs hx
    cases kvs with
    | nil =>
      rw [renderMembers_one] at hx
      rcases List.mem_append.mp hx with hx | hx
      · exact renderStr_no_newline k hx
      · rcases List.mem_cons.mp hx with hx | hx
        · exact absurd hx (by decide)
        · exact ihv hx
    | cons m ms =>
      rw [renderMembers_cons2] at hx
      rcases List.mem_append.mp hx with hx | hx
      · rcases List.mem_append.mp hx with hx | hx
        · exact renderStr_no_newline k hx
        · rcases List.mem_cons.mp hx with hx | hx
          · exact absurd hx (by decide)
          · exact ihv hx
      · rcases List.mem_cons.mp hx with hx | hx
        · exact absurd hx (by decide)
        · exact ihs hx
  exact ⟨Json.recAll hnull hbool hnum hstr harr hobj hqnil hqcons hrnil hrcons,
    Json.recAllElems hnull hbool hnum hstr harr hobj hqnil hqcons hrnil hrcons,
    Json.recAllMembers hnull hbool hnum hstr harr hobj hqnil hqcons hrnil hrcons⟩

/-! ## Structure-level round trips -/

theorem asU8_val (v : Fin 256) : Json.asU8 (.num (v.val : Int)) = some v := by
  have h : (0 : Int) ≤ (v.val : Int) ∧ (v.val : Int) < 256 := by
    constructor
    · exact Int.natCast_nonneg _
    · exact_mod_cast v.isLt
  simp only [Json.asU8]
  rw [dif_pos h]
  congr 1

theorem asOptValue_ne_null (w : Json) (h : w ≠ .null) : w.asOptValue = some w := by
  cases w with
  | null => exact absurd rfl h
  | bool b => rfl
  | num n => rfl
  | str s => rfl
  | arr vs => rfl
  | obj kvs => rfl

set_option maxRecDepth 4096 in
theorem Request.fromJson_toJson (r : Request) : Request.fromJson r.toJson = some r := by
  obtain ⟨id, v, method, params⟩ := r
  have h2 : reqStep { id := some id } ("v", Json.num (v.val : Int)) =
      some { id := some id, v := some v } := by
    show (Json.asU8 (Json.num (v.val : Int))).map _ = _
    rw [asU8_val]
    rfl
  show Request.fromJson (.obj [("id", .str id), ("v", .num (v.val : Int)),
    ("method", .str method), ("params", .obj params)]) = _
  rw [Request.fromJson]
  rw [List.foldlM_cons]
  rw [show reqStep {} ("id", Json.str id) = some { id := some id } from rfl]
  rw [show (some { id := some id } >>= fun s =>
      List.foldlM reqStep s [("v", Json.num (v.val : Int)),
        ("method", Json.str method), ("params", Json.obj params)]) =
      List.foldlM reqStep { id := some id } [("v", Json.num (v.val : Int)),
        ("method", Json.str method), ("params", Json.obj params)] from rfl]
  rw [List.foldlM_cons, h2]
  rfl

theorem errorInfo_fromJson_toJson (e : ErrorInfo)
    (hd : ∀ d, e.details = some d → d ≠ .null) :
    ErrorInfo.fromJson e.toJson = some e := by
  obtain ⟨code, message, details⟩ := e
  cases details with
  | none =>
    show ErrorInfo.fromJson (.obj ([("code", .str code), ("message", .str message)] ++ [])) = _
    simp [ErrorInfo.fromJson, List.foldlM_cons, List.foldlM_nil, errStep, Json.asStr]
  | some d =>
    have hdn : d ≠ .null := hd d rfl
    show ErrorInfo.fromJson (.obj ([("code", .str code), ("message", .str message)] ++
      [("details", d)])) = _
    simp [ErrorInfo.fromJson, List.foldlM_cons, List.foldlM_nil, errStep, Json.asStr,
      asOptValue_ne_null d hdn]

theorem responseMeta_fromJson_toJson (m : ResponseMeta) :
    ResponseMeta.fromJson m.toJson = some m := by
  obtain ⟨ms, pv⟩ := m
  show ResponseMeta.fromJson (.obj [("server_ms", .num ms), ("protocol_v", .num (pv.val : Int))]) = _
  simp [ResponseMeta.fromJson, List.foldlM_cons, List.foldlM_nil, metaStep, Json.asInt, asU8_val]

theorem asOptError_toJson (e : ErrorInfo) (hd : ∀ d, e.details = some d → d ≠ .null) :
    Json.asOptError e.toJson = some (some e) := by
  have hobj : ∃ l, ErrorInfo.toJson e = .obj l := by
    obtain ⟨c2, m2, d2⟩ := e
    exact ⟨_, rfl⟩
  obtain ⟨l, hl⟩ := hobj
  rw [hl]
  rw [show Json.asOptError (.obj l) = (ErrorInfo.fromJson (.obj l)).map some from rfl]
  rw [← hl, errorInfo_fromJson_toJson e hd]
  rfl

set_option maxRecDepth 4096 in
theorem response_fromJson_toJson (r : Response) (h1 : r.result ≠ some .null)
    (h2 : ∀ e, r.error = some e → ∀ d, e.details = some d → d ≠ .null) :
    Response.fromJson r.toJson = some r := by
  obtain ⟨id, ok, result, error, meta⟩ := r
  have hmeta := responseMeta_fromJson_toJson meta
  cases result with
  | none =>
    cases error with
    | none =>
      show Response.fromJson (.obj ([("id", .str id), ("ok", .bool ok)] ++ [] ++ [] ++
        [("meta", meta.toJson)])) = _
      simp [Response.fromJson, List.foldlM_cons, List.foldlM_nil, respStep, Json.asStr,
        Json.asBool, hmeta]
    | some e =>
      have he := asOptError_toJson e (fun d hde => h2 e rfl d hde)
      show Response.fromJson (.obj ([("id", .str id), ("ok", .bool ok)] ++ [] ++
        [("error", e.toJson)] ++ [("meta", meta.toJson)])) = _
      simp [Response.fromJson, List.foldlM_cons, List.foldlM_nil, respStep, Json.asStr,
        Json.asBool, he, hmeta]
  | some w =>
    have hw : w ≠ .null := by
      intro hww
      exact h1 (by rw [hww])
    cases error with
    | none =>
      show Response.fromJson (.obj ([("id", .str id), ("ok", .bool ok)] ++ [("result", w)] ++ [] ++
        [("meta", meta.toJson)])) = _
      simp [Response.fromJson, List.foldlM_cons, List.foldlM_nil, respStep, Json.asStr,
        Json.asBool, asOptValue_ne_null w hw, hmeta]
    | some e =>
      have he := asOptError_toJson e (fun d hde => h2 e rfl d hde)
      show Response.fromJson (.obj ([("id", .str id), ("ok", .bool ok)] ++ [("result", w)] ++
        [("error", e.toJson)] ++ [("meta", meta.toJson)])) = _
      simp [Response.fromJson, List.foldlM_cons, List.foldlM_nil, respStep, Json.asStr,
        Json.asBool, asOptValue_ne_null w hw, he, hmeta]

theorem skipWs_newline : skipWs ['\n'] = [] := rfl

theorem Request.from_to_ndjson (r : Request) :
    Request.from_ndjson_line (Request.to_ndjson_line r) = some r := by
  rw [Request.from_ndjson_line, Request.to_ndjson_line]
  rw [show (String.mk r.toJson.render ++ "\n") = String.mk (r.toJson.render ++ ['\n']) from rfl]
  rw [Json.parse_render_suffix _ _ (goodRest_newline []) skipWs_newline]
  rw [show (some r.toJson).bind Request.fromJson = Request.fromJson r.toJson from rfl]
  exact Request.fromJson_toJson r

theorem response_from_to_ndjson (r : Response) (h1 : r.result ≠ some .null)
    (h2 : ∀ e, r.error = some e → ∀ d, e.details = some d → d ≠ .null) :
    Response.from_ndjson_line (Response.to_ndjson_line r) = some r := by
  rw [Response.from_ndjson_line, Response.to_ndjson_line]
  rw [show (String.mk r.toJson.render ++ "\n") = String.mk (r.toJson.render ++ ['\n']) from rfl]
  rw [Json.parse_render_suffix _ _ (goodRest_newline []) skipWs_newline]
  rw [show (some r.toJson).bind Response.fromJson = Response.fromJson r.toJson from rfl]
  exact response_fromJson_toJson r h1 h2

/-! ## Deserializer field lemmas (unknown keys, required fields, defaults) -/

theorem reqStep_unknown (st : ReqAcc) (p : String × Json)
    (h1 : p.1 ≠ "id") (h2 : p.1 ≠ "v") (h3 : p.1 ≠ "method") (h4 : p.1 ≠ "params") :
    reqStep st p = some st := by
  rw [reqStep, if_neg h1, if_neg h2, if_neg h3, if_neg h4]

theorem respStep_unknown (st : RespAcc) (p : String × Json)
    (h1 : p.1 ≠ "id") (h2 : p.1 ≠ "ok") (h3 : p.1 ≠ "result") (h4 : p.1 ≠ "error")
    (h5 : p.1 ≠ "meta") :
    respStep st p = some st := by
  rw [respStep, if_neg h1, if_neg h2, if_neg h3, if_neg h4, if_neg h5]

theorem foldlM_reqStep_unknown (extra : List (String × Json))
    (h : ∀ p ∈ extra, p.1 ≠ "id" ∧ p.1 ≠ "v" ∧ p.1 ≠ "method" ∧ p.1 ≠ "params") :
    ∀ st : ReqAcc, List.foldlM reqStep st extra = some st := by
  induction extra with
  | nil => intro st; rfl
  | cons p extra ih =>
    intro st
    obtain ⟨h1, h2, h3, h4⟩ := h p (by simp)
    rw [List.foldlM_cons, reqStep_unknown st p h1 h2 h3 h4]
    exact ih (fun q hq => h q (by simp [hq])) st

theorem foldlM_respStep_unknown (extra : List (String × Json))
    (h : ∀ p ∈ extra, p.1 ≠ "id" ∧ p.1 ≠ "ok" ∧ p.1 ≠ "result" ∧ p.1 ≠ "error" ∧ p.1 ≠ "meta") :
    ∀ st : RespAcc, List.foldlM respStep st extra = some st := by
  induction extra with
  | nil => intro st; rfl
  | cons p extra ih =>
    intro st
    obtain ⟨h1, h2, h3, h4, h5⟩ := h p (by simp)
    rw [List.foldlM_cons, respStep_unknown st p h1 h2 h3 h4 h5]
    exact ih (fun q hq => h q (by simp [hq])) st

theorem Request.fromJson_append_unknown (kvs extra : List (String × Json))
    (h : ∀ p ∈ extra, p.1 ≠ "id" ∧ p.1 ≠ "v" ∧ p.1 ≠ "method" ∧ p.1 ≠ "params") :
    Request.fromJson (.obj (kvs ++ extra)) = Request.fromJson (.obj kvs) := by
  rw [Request.fromJson, Request.fromJson]
  rw [List.foldlM_append]
  cases hk : List.foldlM reqStep {} kvs with
  | none => rfl
  | some st =>
    rw [show ((some st >>= fun b => List.foldlM reqStep b extra) : Option ReqAcc) =
      List.foldlM reqStep st extra from rfl]
    rw [foldlM_reqStep_unknown extra h st]

theorem response_fromJson_append_unknown (kvs extra : List (String × Json))
    (h : ∀ p ∈ extra, p.1 ≠ "id" ∧ p.1 ≠ "ok" ∧ p.1 ≠ "result" ∧ p.1 ≠ "error" ∧ p.1 ≠ "meta") :
    Response.fromJson (.obj (kvs ++ extra)) = Response.fromJson (.obj kvs) := by
  rw [Response.fromJson, Response.fromJson]
  rw [List.foldlM_append]
  cases hk : List.foldlM respStep {} kvs with
  | none => rfl
  | some st =>
    rw [show ((some st >>= fun b => List.foldlM respStep b extra) : Option RespAcc) =
      List.foldlM respStep st extra from rfl]
    rw [foldlM_respStep_unknown extra h st]

theorem reqStep_preserves (st st2 : ReqAcc) (p : String × Json)
    (hs : reqStep st p = some st2) :
    (p.1 ≠ "id" → st2.id = st.id) ∧ (p.1 ≠ "params" → st2.params = st.params) := by
  rw [reqStep] at hs
  split_ifs at hs with h1 h2 h3 h4
  · constructor
    · intro hc
      exact absurd h1 hc
    · intro _
      split at hs
      · exact absurd hs (by simp)
      · obtain ⟨a, ha, rfl⟩ := Option.map_eq_some'.mp hs
        rfl
  · constructor
    · intro _
      split at hs
      · exact absurd hs (by simp)
      · obtain ⟨a, ha, rfl⟩ := Option.map_eq_some'.mp hs
        rfl
    · intro _
      split at hs
      · exact absurd hs (by simp)
      · obtain ⟨a, ha, rfl⟩ := Option.map_eq_some'.mp hs
        rfl
  · constructor
    · intro _
      split at hs
      · exact absurd hs (by simp)
      · obtain ⟨a, ha, rfl⟩ := Option.map_eq_some'.mp hs
        rfl
    · intro _
      split at hs
      · exact absurd hs (by simp)
      · obtain ⟨a, ha, rfl⟩ := Option.map_eq_some'.mp hs
        rfl
  · constructor
    · intro _
      split at hs
      · exact absurd hs (by simp)
      · obtain ⟨a, ha, rfl⟩ := Option.map_eq_some'.mp hs
        rfl
    · intro hc
      exact absurd h4 hc
  · injection hs with hh
    rw [← hh]
    exact ⟨fun _ => rfl, fun _ => rfl⟩

theorem foldlM_reqStep_preserves (kvs : List (String × Json)) :
    ∀ st st2 : ReqAcc, List.foldlM reqStep st kvs = some st2 →
      ((∀ p ∈ kvs, p.1 ≠ "id") → st2.id = st.id) ∧
      ((∀ p ∈ kvs, p.1 ≠ "params") → st2.params = st.params) := by
  induction kvs with
  | nil =>
    intro st st2 hs
    injection hs with hh
    rw [← hh]
    exact ⟨fun _ => rfl, fun _ => rfl⟩
  | cons p kvs ih =>
    intro st st2 hs
    rw [List.foldlM_cons] at hs
    cases hstep : reqStep st p with
    | none =>
      rw [hstep] at hs
      exact absurd hs (by simp)
    | some st1 =>
      rw [hstep] at hs
      rw [show ((some st1 >>= fun b => List.foldlM reqStep b kvs) : Option ReqAcc) =
        List.foldlM reqStep st1 kvs from rfl] at hs
      have hp := reqStep_preserves st st1 p hstep
      have hrest := ih st1 st2 hs
      constructor
      · intro hall
        rw [hrest.1 (fun q hq => hall q (by simp [hq])), hp.1 (hall p (by simp))]
      · intro hall
        rw [hrest.2 (fun q hq => hall q (by simp [hq])), hp.2 (hall p (by simp))]

/-- A JSON object with no `id` key fails to decode as a `Request`
(serde: `missing field id`). -/
theorem Request.fromJson_missing_id (kvs : List (String × Json))
    (h : ∀ p ∈ kvs, p.1 ≠ "id") :
    Request.fromJson (.obj kvs) = none := by
  rw [Request.fromJson]
  cases hk : List.foldlM reqStep {} kvs with
  | none => rfl
  | some st =>
    obtain ⟨sid, sv, sm, sp⟩ := st
    have hid : sid = none := by
      have := (foldlM_reqStep_preserves kvs {} _ hk).1 h
      simpa using this
    subst hid
    rcases sv with _ | v <;> rcases sm with _ | m <;> rfl

/-- Decoding an otherwise-valid `Request` object with no `params` key
succeeds with the empty parameter map (`#[serde(default)]`). -/
theorem Request.fromJson_no_params (kvs : List (String × Json))
    (h : ∀ p ∈ kvs, p.1 ≠ "params") :
    ∀ r : Request, Request.fromJson (.obj kvs) = some r → r.params = [] := by
  intro r hr
  rw [Request.fromJson] at hr
  cases hk : List.foldlM reqStep {} kvs with
  | none =>
    rw [hk] at hr
    exact absurd hr (by simp)
  | some st =>
    rw [hk] at hr
    obtain ⟨sid, sv, sm, sp⟩ := st
    have hps : sp = none := by
      have := (foldlM_reqStep_preserves kvs {} _ hk).2 h
      simpa using this
    subst hps
    rcases sid with _ | i
    · exact absurd hr (by simp)
    rcases sv with _ | v
    · exact absurd hr (by simp)
    rcases sm with _ | m
    · exact absurd hr (by simp)
    have hh : some (⟨i, v, m, []⟩ : Request) = some r := hr
    injection hh with hh2
    rw [← hh2]

/-- An otherwise-valid paramless request object decodes with `params = []`. -/
theorem Request.fromJson_paramless (i m : String) (n : Int) (h0 : 0 ≤ n) (h256 : n < 256) :
    Request.fromJson (.obj [("id", .str i), ("v", .num n), ("method", .str m)]) =
      some ⟨i, ⟨n.toNat, by omega⟩, m, []⟩ := by
  have h2 : reqStep { id := some i } ("v", Json.num n) =
      some { id := some i, v := some ⟨n.toNat, by omega⟩ } := by
    show (Json.asU8 (Json.num n)).map _ = _
    simp only [Json.asU8]
    rw [dif_pos ⟨h0, h256⟩]
    rfl
  rw [Request.fromJson, List.foldlM_cons]
  rw [show reqStep {} ("id", Json.str i) = some { id := some i } from rfl]
  rw [show ((some { id := some i } >>= fun s => List.foldlM reqStep s
    [("v", Json.num n), ("method", Json.str m)]) : Option ReqAcc) =
    List.foldlM reqStep { id := some i } [("v", Json.num n), ("method", Json.str m)] from rfl]
  rw [List.foldlM_cons, h2]
  rfl

/-! ## Server routing lemmas -/

theorem string_data_append (s t : String) : (s ++ t).data = s.data ++ t.data := by
  obtain ⟨ls⟩ := s
  obtain ⟨lt⟩ := t
  rfl

theorem isPrefixOf_append_self (l t : List Char) : l.isPrefixOf (l ++ t) = true := by
  induction l with
  | nil => simp [List.isPrefixOf]
  | cons a l ih => simp [List.isPrefixOf, ih]

theorem strStartsWith_append (p m : String) : strStartsWith (p ++ m) p = true := by
  rw [strStartsWith, string_data_append]
  exact isPrefixOf_append_self p.data m.data

theorem strDrop_append (p m : String) : strDrop (p ++ m) (strLen p) = m := by
  rw [strDrop, strLen, string_data_append, List.drop_left]

theorem isPrefixOf_mem (p s : List Char) (h : p.isPrefixOf s = true) :
    ∀ c ∈ p, c ∈ s := by
  induction p generalizing s with
  | nil => intro c hc; simp at hc
  | cons a p ih =>
    cases s with
    | nil => simp [List.isPrefixOf] at h
    | cons b s =>
      simp only [List.isPrefixOf, Bool.and_eq_true, beq_iff_eq] at h
      intro c hc
      rcases List.mem_cons.mp hc with rfl | hc
      · rw [h.1]; simp
      · exact List.mem_cons_of_mem b (ih s h.2 c hc)

/-- A method string without a dot is never namespaced, for any service name. -/
theorem strStartsWith_dot_false (s : String) (name : String)
    (h : strContains s '.' = false) : strStartsWith s (name ++ ".") = false := by
  by_contra hc
  rw [Bool.not_eq_false] at hc
  rw [strStartsWith] at hc
  have hmem : '.' ∈ s.data := by
    apply isPrefixOf_mem _ _ hc
    rw [string_data_append]
    simp [show ("." : String).data = ['.'] from rfl]
  rw [strContains] at h
  have hel := List.elem_eq_true_of_mem hmem
  have h2 : List.elem '.' s.data = false := h
  rw [h2] at hel
  exact absurd hel (by simp)

theorem success_exclusive (id : String) (result : Json) (ms : Int) :
    mutualExclusive (Response.success id result ms) := by
  simp [mutualExclusive, Response.success]

theorem mkError_exclusive (id code m : String) (ms : Int) :
    mutualExclusive (Response.mkError id code m ms) := by
  simp [mutualExclusive, Response.mkError]

theorem errorWithDetails_exclusive (id code m : String) (d : Json) (ms : Int) :
    mutualExclusive (Response.errorWithDetails id code m d ms) := by
  simp [mutualExclusive, Response.errorWithDetails]

theorem dispatchResult_exclusive (svc : FgpService) (dm id : String)
    (params : List (String × Json)) (ms : Int) :
    mutualExclusive (match svc.dispatch dm params with
      | .ok result => (Response.success id result ms, true)
      | .error e => (Response.mkError id INTERNAL_ERROR e ms, true)).1 := by
  split
  · exact success_exclusive _ _ _
  · exact mkError_exclusive _ _ _ _

theorem dispatchResult_id (svc : FgpService) (dm id : String)
    (params : List (String × Json)) (ms : Int) :
    ((match svc.dispatch dm params with
      | .ok result => (Response.success id result ms, true)
      | .error e => (Response.mkError id INTERNAL_ERROR e ms, true)).1).id = id := by
  split
  · rfl
  · rfl

theorem handleRequest_exclusive (ctx : ServerCtx) (svc : FgpService) (req : Request)
    (ms : Int) : mutualExclusive (handleRequest ctx svc req ms).1 := by
  rw [handleRequest]
  split_ifs <;> first
    | exact success_exclusive _ _ _
    | exact mkError_exclusive _ _ _ _
    | exact dispatchResult_exclusive svc _ _ _ _

theorem handleRequest_id (ctx : ServerCtx) (svc : FgpService) (req : Request) (ms : Int) :
    ((handleRequest ctx svc req ms).1).id = req.id := by
  rw [handleRequest]
  split_ifs <;> first
    | rfl
    | exact dispatchResult_id svc _ _ _ _

theorem handleLine_cases (ctx : ServerCtx) (svc : FgpService) (line : String) (ms : Int)
    (hb : line.data.all Char.isWhitespace = false) :
    (Request.from_ndjson_line line = none →
      handleLine ctx svc line ms =
        (some (Response.mkError "null" INVALID_REQUEST "Failed to parse request" ms), true)) ∧
    (∀ req, Request.from_ndjson_line line = some req →
      ∃ resp b, handleLine ctx svc line ms = (some resp, b) ∧ resp.id = req.id) := by
  rw [handleLine, if_neg (by rw [hb]; simp)]
  constructor
  · intro hp
    rw [hp]
  · intro req hp
    rw [hp]
    show ∃ resp b,
      ((if req.v ≠ PROTOCOL_VERSION then
          (some (Response.mkError req.id INVALID_REQUEST "Unsupported protocol version" ms), true)
        else
          ((some (handleRequest ctx svc req ms).1, (handleRequest ctx svc req ms).2) :
            Option Response × Bool)) = (some resp, b)) ∧ resp.id = req.id
    by_cases hv : req.v = PROTOCOL_VERSION
    · rw [if_neg (by simp [hv])]
      exact ⟨(handleRequest ctx svc req ms).1, (handleRequest ctx svc req ms).2,
        rfl, handleRequest_id ctx svc req ms⟩
    · rw [if_pos (by simp [hv])]
      exact ⟨_, _, rfl, rfl⟩

theorem handleLine_exclusive (ctx : ServerCtx) (svc : FgpService) (line : String) (ms : Int)
    (resp : Response) (b : Bool) (h : handleLine ctx svc line ms = (some resp, b)) :
    mutualExclusive resp := by
  rw [handleLine] at h
  split_ifs at h
  · exact absurd h (by simp)
  · split at h
    · injection h with h1 h2
      injection h1 with h1
      rw [← h1]
      exact mkError_exclusive _ _ _ _
    · split_ifs at h
      · injection h with h1 h2
        injection h1 with h1
        rw [← h1]
        exact mkError_exclusive _ _ _ _
      · injection h with h1 h2
        injection h1 with h1
        rw [← h1]
        exact handleRequest_exclusive _ _ _ _

theorem handleRequest_stop_bare (ctx : ServerCtx) (svc : FgpService) (id : String)
    (params : List (String × Json)) (ms : Int) :
    handleRequest ctx svc ⟨id, 1, "stop", params⟩ ms =
      (Response.success id (.obj [("message", .str "Shutting down")]) ms, false) := by
  have hns : strStartsWith "stop" (svc.name ++ ".") = false :=
    strStartsWith_dot_false "stop" svc.name (by decide)
  simp [handleRequest, hns]

theorem handleRequest_stop_ns (ctx : ServerCtx) (svc : FgpService) (id : String)
    (params : List (String × Json)) (ms : Int) :
    handleRequest ctx svc ⟨id, 1, svc.name ++ "." ++ "stop", params⟩ ms =
      (Response.success id (.obj [("message", .str "Shutting down")]) ms, false) := by
  have hns : strStartsWith (svc.name ++ "." ++ "stop") (svc.name ++ ".") = true :=
    strStartsWith_append _ _
  have hdrop : strDrop (svc.name ++ "." ++ "stop") (strLen (svc.name ++ ".")) = "stop" :=
    strDrop_append _ _
  simp [handleRequest, hns, hdrop]

theorem to_ndjson_not_blank (r : Request) :
    (Request.to_ndjson_line r).data.all Char.isWhitespace = false := by
  have h1 : (Request.to_ndjson_line r).data = Json.render r.toJson ++ ['\n'] := rfl
  have h2 : Json.render r.toJson =
      '{' :: (renderMembers [("id", .str r.id), ("v", .num (r.v.val : Int)),
        ("method", .str r.method), ("params", .obj r.params)] ++ ['}']) := rfl
  rw [h1, h2, List.cons_append]
  simp

theorem healthStatusStr_all_ok (hs : List (String × HealthStatus))
    (h : ∀ p ∈ hs, p.2.ok = true) : healthStatusStr hs = "healthy" := by
  rw [healthStatusStr, if_pos]
  rw [List.all_eq_true]
  intro p hp
  simpa using h p hp

theorem healthStatusStr_all_bad (hs : List (String × HealthStatus)) (hne : hs ≠ [])
    (h : ∀ p ∈ hs, p.2.ok = false) : healthStatusStr hs = "unhealthy" := by
  obtain ⟨p0, hs'⟩ : ∃ p0 hs', hs = p0 :: hs' := by
    cases hs with
    | nil => exact absurd rfl hne
    | cons a l => exact ⟨a, l, rfl⟩
  obtain ⟨hs', rfl⟩ := hs'
  rw [healthStatusStr]
  rw [if_neg, if_neg, if_neg]
  · simp
  · rw [List.any_eq_true]
    rintro ⟨x, hx, hxo⟩
    rw [h x hx] at hxo
    simp at hxo
  · rw [List.all_eq_true]
    intro hall
    have := hall p0 (by simp)
    rw [h p0 (by simp)] at this
    simp at this

theorem healthStatusStr_mixed (hs : List (String × HealthStatus))
    (h1 : ∃ p ∈ hs, p.2.ok = true) (h2 : ∃ q ∈ hs, q.2.ok = false) :
    healthStatusStr hs = "degraded" := by
  obtain ⟨p, hp, hpo⟩ := h1
  obtain ⟨q, hq, hqo⟩ := h2
  rw [healthStatusStr]
  rw [if_neg, if_pos]
  · rw [List.any_eq_true]
    exact ⟨p, hp, by simpa using hpo⟩
  · rw [List.all_eq_true]
    intro hall
    have := hall q hq
    rw [hqo] at this
    simp at this

theorem Json.parse_mk_render (v : Json) : Json.parse (String.mk v.render) = some v := by
  have h := Json.parse_render_suffix v [] goodRest_nil rfl
  rwa [List.append_nil] at h

/-! ## Claim theorems -/

/-- C1: for every Response the implementation constructs — via
`Response::success`, `Response::error`, `Response::error_with_details`, or as
any response the connection handler writes for a line — `ok = true` holds
exactly when `result` is present and `error` absent, and `ok = false` exactly
when `error` is present and `result` absent; no such instance has both
populated or neither. -/
theorem C1_response_mutual_exclusivity :
    (∀ (id : String) (result : Json) (ms : Int),
      mutualExclusive (Response.success id result ms)) ∧
    (∀ (id code m : String) (ms : Int), mutualExclusive (Response.mkError id code m ms)) ∧
    (∀ (id code m : String) (d : Json) (ms : Int),
      mutualExclusive (Response.errorWithDetails id code m d ms)) ∧
    (∀ (ctx : ServerCtx) (svc : FgpService) (line : String) (ms : Int)
      (resp : Response) (b : Bool),
      handleLine ctx svc line ms = (some resp, b) → mutualExclusive resp) :=
  ⟨success_exclusive, mkError_exclusive, errorWithDetails_exclusive,
    fun ctx svc line ms resp b h => handleLine_exclusive ctx svc line ms resp b h⟩

/-- C1 witness: the handler's response to a concrete unparseable line
satisfies the pairing invariant. -/
theorem C1_response_mutual_exclusivity_witness :
    mutualExclusive (Response.mkError "null" INVALID_REQUEST "Failed to parse request" 0) :=
  C1_response_mutual_exclusivity.2.2.2 sampleCtx sampleSvc "nope" 0
    (Response.mkError "null" INVALID_REQUEST "Failed to parse request" 0) true (by rfl)

/-- C2 counterexample: a Response whose `result` is `Some(Value::Null)` —
as built by `Response::success` with a `Null` result — serializes to
`"result":null`, which decodes back to `None` (serde collapses
`Option<Value>`), so decoding the encoded line does not return the original
value. -/
theorem C2_roundtrip_counterexample :
    Response.from_ndjson_line (Response.to_ndjson_line (Response.success "x" Json.null 0)) ≠
      some (Response.success "x" Json.null 0) := by decide

/-- C2 (amended): encoding then decoding returns the original for every
Request (all field combinations, nested params, unicode, embedded newlines),
and for every Response whose `result` is not literally `Some(Value::Null)`
and whose error `details` is not literally `Some(Value::Null)` (serde's
`Option<Value>` fields collapse a present `null` to `None` on decode); in
every encoded line the only raw newline is the single terminator. -/
theorem C2_roundtrip_amended (req : Request) (resp : Response)
    (h1 : resp.result ≠ some .null)
    (h2 : ∀ e, resp.error = some e → e.details ≠ some .null) :
    Request.from_ndjson_line (Request.to_ndjson_line req) = some req ∧
    Response.from_ndjson_line (Response.to_ndjson_line resp) = some resp ∧
    (∃ j, (Request.to_ndjson_line req).data = j ++ ['\n'] ∧ '\n' ∉ j) ∧
    (∃ j, (Response.to_ndjson_line resp).data = j ++ ['\n'] ∧ '\n' ∉ j) := by
  refine ⟨Request.from_to_ndjson req,
    response_from_to_ndjson resp h1 (fun e he d hd hdn => h2 e he (by rw [hd, hdn])),
    ⟨req.toJson.render, rfl, render_no_newline.1 req.toJson⟩,
    ⟨resp.toJson.render, rfl, render_no_newline.1 resp.toJson⟩⟩

/-- C2 witness: the amended round trip at a concrete request (unicode,
embedded newline, nested params) and a concrete error response. -/
theorem C2_roundtrip_amended_witness :
    ((Response.mkError "id1" "NOT_FOUND" "no" 5).result ≠ some .null) ∧
    Request.from_ndjson_line (Request.to_ndjson_line
      ⟨"a", 1, "m", [("k", Json.str "x\ny✓"), ("n", Json.arr [Json.num (-3), Json.null])]⟩) =
      some ⟨"a", 1, "m", [("k", Json.str "x\ny✓"), ("n", Json.arr [Json.num (-3), Json.null])]⟩ ∧
    Response.from_ndjson_line (Response.to_ndjson_line
      (Response.mkError "id1" "NOT_FOUND" "no" 5)) =
      some (Response.mkError "id1" "NOT_FOUND" "no" 5) :=
  ⟨by decide,
    (C2_roundtrip_amended
      ⟨"a", 1, "m", [("k", Json.str "x\ny✓"), ("n", Json.arr [Json.num (-3), Json.null])]⟩
      (Response.mkError "id1" "NOT_FOUND" "no" 5) (by decide) (by decide)).1,
    (C2_roundtrip_amended
      ⟨"a", 1, "m", [("k", Json.str "x\ny✓"), ("n", Json.arr [Json.num (-3), Json.null])]⟩
      (Response.mkError "id1" "NOT_FOUND" "no" 5) (by decide) (by decide)).2.1⟩

/-- C3: for a server whose service is named `"gmail"`, a valid version-1
request with method `"list"` is dispatched as `"gmail.list"`; a request with
method `"gmail.list"` is dispatched unchanged; a request with method
`"other.list"` gets an INVALID_REQUEST error response that does not depend
on the dispatch function (dispatch is never reached). -/
theorem C3_namespace_normalization (ctx : ServerCtx) (ver : String)
    (ml : List MethodInfo) (hc : List (String × HealthStatus))
    (d : String → List (String × Json) → Except String Json)
    (id : String) (params : List (String × Json)) (ms : Int) :
    (handleRequest ctx ⟨"gmail", ver, d, ml, hc⟩ ⟨id, 1, "list", params⟩ ms =
      (match d "gmail.list" params with
       | .ok result => (Response.success id result ms, true)
       | .error e => (Response.mkError id INTERNAL_ERROR e ms, true))) ∧
    (handleRequest ctx ⟨"gmail", ver, d, ml, hc⟩ ⟨id, 1, "gmail.list", params⟩ ms =
      (match d "gmail.list" params with
       | .ok result => (Response.success id result ms, true)
       | .error e => (Response.mkError id INTERNAL_ERROR e ms, true))) ∧
    (handleRequest ctx ⟨"gmail", ver, d, ml, hc⟩ ⟨id, 1, "other.list", params⟩ ms =
      (Response.mkError id INVALID_REQUEST
        "Method namespace must match service 'gmail': got 'other.list'" ms, true)) := by
  refine ⟨?_, ?_, ?_⟩
  · rfl
  · rfl
  · rfl

/-- C4: the built-in health handler's overall status is `"healthy"` when the
`health_check()` map is empty or every entry is ok, `"unhealthy"` when the
map is non-empty and every entry is not ok, and `"degraded"` when entries
mix ok and not-ok; the handler's successful response reports exactly this
aggregated status. -/
theorem C4_health_aggregation (hs : List (String × HealthStatus)) :
    ((hs = [] ∨ ∀ p ∈ hs, p.2.ok = true) → healthStatusStr hs = "healthy") ∧
    (hs ≠ [] → (∀ p ∈ hs, p.2.ok = false) → healthStatusStr hs = "unhealthy") ∧
    ((∃ p ∈ hs, p.2.ok = true) → (∃ q ∈ hs, q.2.ok = false) →
      healthStatusStr hs = "degraded") ∧
    (∀ (ctx : ServerCtx) (svc : FgpService) (id : String) (ms : Int),
      svc.health_check = hs →
      ∃ kvs, handle_health_static ctx svc id ms =
        Response.success id (.obj (("status", .str (healthStatusStr hs)) :: kvs)) ms) := by
  refine ⟨?_, healthStatusStr_all_bad hs, healthStatusStr_mixed hs, ?_⟩
  · rintro (rfl | h)
    · rfl
    · exact healthStatusStr_all_ok hs h
  · intro ctx svc id ms hsv
    refine ⟨[("pid", .num ctx.pid), ("started_at", .str ctx.started_at_iso),
      ("version", .str svc.version), ("uptime_seconds", .num ctx.uptime_seconds),
      ("services", .obj (svc.health_check.map fun p => (p.1, p.2.toJson)))], ?_⟩
    rw [handle_health_static, hsv]

/-- C4 witness: the scenario of the spec — one not-ok entry and one ok
entry — aggregates to `"degraded"`. -/
theorem C4_health_aggregation_witness :
    healthStatusStr [("a", ⟨false, none, none⟩), ("b", ⟨true, none, none⟩)] = "degraded" :=
  (C4_health_aggregation [("a", ⟨false, none, none⟩), ("b", ⟨true, none, none⟩)]).2.2.1
    ⟨("b", ⟨true, none, none⟩), by simp, rfl⟩
    ⟨("a", ⟨false, none, none⟩), by simp, rfl⟩

/-- C5: for every non-blank line the connection handler processes, if the
line parses as a Request (of the supported protocol version or not) the
response written back echoes the Request's id; if the line fails to parse,
the response carries the literal id `"null"` and error code
INVALID_REQUEST. -/
theorem C5_id_echoing (ctx : ServerCtx) (svc : FgpService) (line : String) (ms : Int)
    (hb : line.data.all Char.isWhitespace = false) :
    (∀ req, Request.from_ndjson_line line = some req →
      ∃ resp b, handleLine ctx svc line ms = (some resp, b) ∧ resp.id = req.id) ∧
    (Request.from_ndjson_line line = none →
      handleLine ctx svc line ms =
        (some (Response.mkError "null" INVALID_REQUEST "Failed to parse request" ms), true)) :=
  ⟨(handleLine_cases ctx svc line ms hb).2, (handleLine_cases ctx svc line ms hb).1⟩

/-- C5 witness: a concrete parseable line (numeric-string id) is answered
with the echoed id, and a concrete garbage line with id `"null"`. -/
theorem C5_id_echoing_witness :
    (∃ resp b, handleLine sampleCtx sampleSvc
        "\x7b\"id\":\"42\",\"v\":1,\"method\":\"m\",\"params\":\x7b\x7d\x7d" 0 = (some resp, b) ∧
      resp.id = "42") ∧
    handleLine sampleCtx sampleSvc "nope" 0 =
      (some (Response.mkError "null" INVALID_REQUEST "Failed to parse request" 0), true) :=
  ⟨(C5_id_echoing sampleCtx sampleSvc
      "\x7b\"id\":\"42\",\"v\":1,\"method\":\"m\",\"params\":\x7b\x7d\x7d" 0 (by decide)).1
      ⟨"42", 1, "m", []⟩ (by decide),
   (C5_id_echoing sampleCtx sampleSvc "nope" 0 (by decide)).2 (by decide)⟩

/-- C6: handling a `stop` request (bare or namespace-prefixed) clears the
running flag while still producing the `ok = true` shutdown acknowledgment;
the connection loop emits that acknowledgment and then exits with the rest
of the input unread; the accept loop handles no connection once the flag is
false; and after `serve` returns the socket file is removed, so a connection
attempt on it fails. -/
theorem C6_graceful_stop (ctx : ServerCtx) (svc : FgpService) (id : String)
    (params : List (String × Json)) (ms : Int) (rest : List String)
    (conns : List (List String)) :
    (handleRequest ctx svc ⟨id, 1, "stop", params⟩ ms =
      (Response.success id (.obj [("message", .str "Shutting down")]) ms, false) ∧
      (Response.success id (.obj [("message", .str "Shutting down")]) ms).ok = true) ∧
    (handleRequest ctx svc ⟨id, 1, svc.name ++ "." ++ "stop", params⟩ ms =
      (Response.success id (.obj [("message", .str "Shutting down")]) ms, false)) ∧
    (connLoop ctx svc ms (Request.to_ndjson_line ⟨id, 1, "stop", params⟩ :: rest) =
      ([Response.success id (.obj [("message", .str "Shutting down")]) ms], false)) ∧
    ((acceptLoop ctx svc ms false conns).1 = []) ∧
    ((serve ctx svc ms conns).socketExists = false ∧
      connectAttemptSucceeds (serve ctx svc ms conns).socketExists = false) := by
  have hstop := handleRequest_stop_bare ctx svc id params ms
  have hline : handleLine ctx svc (Request.to_ndjson_line ⟨id, 1, "stop", params⟩) ms =
      (some (Response.success id (.obj [("message", .str "Shutting down")]) ms), false) := by
    rw [handleLine, if_neg (by rw [to_ndjson_not_blank]; simp),
      Request.from_to_ndjson ⟨id, 1, "stop", params⟩]
    show (if (1 : Fin 256) ≠ PROTOCOL_VERSION then
        (some (Response.mkError id INVALID_REQUEST "Unsupported protocol version" ms), true)
      else
        ((some (handleRequest ctx svc ⟨id, 1, "stop", params⟩ ms).1,
          (handleRequest ctx svc ⟨id, 1, "stop", params⟩ ms).2) : Option Response × Bool)) = _
    rw [if_neg (by decide), hstop]
  refine ⟨⟨hstop, rfl⟩, handleRequest_stop_ns ctx svc id params ms, ?_, ?_, rfl, rfl⟩
  · rw [connLoop, hline]
  · cases conns with
    | nil => rfl
    | cons c cs => rw [acceptLoop, if_neg (by simp)]

/-- C7 counterexample: when the connect retry after a successful auto-start
also fails, the error the client propagates wraps the RETRY attempt's
failure with the auto-start context — the original connection failure is
discarded and appears nowhere in the propagated chain. -/
theorem C7_auto_start_counterexample :
    send_request_connect (some "gmail") "/tmp/fgp.sock"
      (fun i => if i = 0 then .error ["original connect failure"]
        else .error ["retry connect failure"])
      (fun _ => .ok ()) =
      .error ["Cannot connect to daemon at /tmp/fgp.sock after auto-start",
        "retry connect failure"] ∧
    "original connect failure" ∉
      ["Cannot connect to daemon at /tmp/fgp.sock after auto-start",
        "retry connect failure"] :=
  ⟨rfl, by decide⟩

/-- C7 amended: the client's connect path, fully characterized.  If the
initial connect succeeds nothing else runs; with no auto-start name the
first failure is propagated immediately with the target path as context;
with an auto-start name a failed start propagates the start failure with
auto-start context; a successful start is followed by exactly one retry
(the result depends on no connect attempt beyond the first two), whose
success is returned and whose failure — not the original one — is
propagated wrapped with the after-auto-start context. -/
theorem C7_auto_start_amended (a : Option String) (path : String)
    (c : Nat → Except (List String) Unit) (s : String → Except (List String) Unit) :
    (c 0 = .ok () → send_request_connect a path c s = .ok ()) ∧
    (∀ e, c 0 = .error e → a = none →
      send_request_connect a path c s =
        .error (("Cannot connect to daemon at " ++ path) :: e)) ∧
    (∀ e n se, c 0 = .error e → a = some n → s n = .error se →
      send_request_connect a path c s =
        .error (("Failed to auto-start service '" ++ n ++ "'") :: se)) ∧
    (∀ e n, c 0 = .error e → a = some n → s n = .ok () → c 1 = .ok () →
      send_request_connect a path c s = .ok ()) ∧
    (∀ e n e2, c 0 = .error e → a = some n → s n = .ok () → c 1 = .error e2 →
      send_request_connect a path c s =
        .error (("Cannot connect to daemon at " ++ path ++ " after auto-start") :: e2)) ∧
    (∀ c2 : Nat → Except (List String) Unit, c2 0 = c 0 → c2 1 = c 1 →
      send_request_connect a path c2 s = send_request_connect a path c s) := by
  refine ⟨?_, ?_, ?_, ?_, ?_, ?_⟩
  · intro h; simp [send_request_connect, h]
  · rintro e h rfl; simp [send_request_connect, h]
  · rintro e n se h rfl hs; simp [send_request_connect, h, hs]
  · rintro e n h rfl hs h1; simp [send_request_connect, h, hs, h1]
  · rintro e n e2 h rfl hs h1; simp [send_request_connect, h, hs, h1]
  · intro c2 h0 h1
    simp only [send_request_connect, h0, h1]

/-- C7 amended witness: a failed first connect, a configured auto-start
that succeeds, and a succeeding retry yield success. -/
theorem C7_auto_start_amended_witness :
    send_request_connect (some "svc") "/p"
      (fun i => if i = 0 then .error ["e0"] else .ok ()) (fun _ => .ok ()) = .ok () :=
  (C7_auto_start_amended (some "svc") "/p"
      (fun i => if i = 0 then .error ["e0"] else .ok ()) (fun _ => .ok ())).2.2.2.1
    ["e0"] "svc" rfl rfl rfl rfl

/-- C8: for every request whose method is `health`, `stop` or `methods` —
bare or prefixed with this service's namespace — the server answers with
the corresponding built-in handler, and the answer is identical for any two
dispatch functions (so the Service Contract's dispatch is never consulted),
regardless of what `method_list` advertises. -/
theorem C8_builtin_precedence (ctx : ServerCtx) (name ver : String)
    (d d2 : String → List (String × Json) → Except String Json)
    (ml : List MethodInfo) (hc : List (String × HealthStatus))
    (id : String) (params : List (String × Json)) (ms : Int) :
    (handleRequest ctx ⟨name, ver, d, ml, hc⟩ ⟨id, 1, "health", params⟩ ms =
        (handle_health_static ctx ⟨name, ver, d, ml, hc⟩ id ms, true) ∧
      handleRequest ctx ⟨name, ver, d, ml, hc⟩ ⟨id, 1, "health", params⟩ ms =
        handleRequest ctx ⟨name, ver, d2, ml, hc⟩ ⟨id, 1, "health", params⟩ ms) ∧
    (handleRequest ctx ⟨name, ver, d, ml, hc⟩ ⟨id, 1, "stop", params⟩ ms =
        (Response.success id (.obj [("message", .str "Shutting down")]) ms, false) ∧
      handleRequest ctx ⟨name, ver, d, ml, hc⟩ ⟨id, 1, "stop", params⟩ ms =
        handleRequest ctx ⟨name, ver, d2, ml, hc⟩ ⟨id, 1, "stop", params⟩ ms) ∧
    (handleRequest ctx ⟨name, ver, d, ml, hc⟩ ⟨id, 1, "methods", params⟩ ms =
        (handle_methods_static ⟨name, ver, d, ml, hc⟩ id ms, true) ∧
      handleRequest ctx ⟨name, ver, d, ml, hc⟩ ⟨id, 1, "methods", params⟩ ms =
        handleRequest ctx ⟨name, ver, d2, ml, hc⟩ ⟨id, 1, "methods", params⟩ ms) ∧
    (handleRequest ctx ⟨name, ver, d, ml, hc⟩ ⟨id, 1, name ++ "." ++ "health", params⟩ ms =
        (handle_health_static ctx ⟨name, ver, d, ml, hc⟩ id ms, true) ∧
      handleRequest ctx ⟨name, ver, d, ml, hc⟩ ⟨id, 1, name ++ "." ++ "health", params⟩ ms =
        handleRequest ctx ⟨name, ver, d2, ml, hc⟩ ⟨id, 1, name ++ "." ++ "health", params⟩ ms) ∧
    (handleRequest ctx ⟨name, ver, d, ml, hc⟩ ⟨id, 1, name ++ "." ++ "stop", params⟩ ms =
        (Response.success id (.obj [("message", .str "Shutting down")]) ms, false) ∧
      handleRequest ctx ⟨name, ver, d, ml, hc⟩ ⟨id, 1, name ++ "." ++ "stop", params⟩ ms =
        handleRequest ctx ⟨name, ver, d2, ml, hc⟩ ⟨id, 1, name ++ "." ++ "stop", params⟩ ms) ∧
    (handleRequest ctx ⟨name, ver, d, ml, hc⟩ ⟨id, 1, name ++ "." ++ "methods", params⟩ ms =
        (handle_methods_static ⟨name, ver, d, ml, hc⟩ id ms, true) ∧
      handleRequest ctx ⟨name, ver, d, ml, hc⟩ ⟨id, 1, name ++ "." ++ "methods", params⟩ ms =
        handleRequest ctx ⟨name, ver, d2, ml, hc⟩ ⟨id, 1, name ++ "." ++ "methods", params⟩ ms) := by
  have hh : strStartsWith "health" (name ++ ".") = false :=
    strStartsWith_dot_false "health" name (by decide)
  have hs : strStartsWith "stop" (name ++ ".") = false :=
    strStartsWith_dot_false "stop" name (by decide)
  have hm : strStartsWith "methods" (name ++ ".") = false :=
    strStartsWith_dot_false "methods" name (by decide)
  have hnh : strStartsWith (name ++ "." ++ "health") (name ++ ".") = true :=
    strStartsWith_append _ _
  have hns : strStartsWith (name ++ "." ++ "stop") (name ++ ".") = true :=
    strStartsWith_append _ _
  have hnm : strStartsWith (name ++ "." ++ "methods") (name ++ ".") = true :=
    strStartsWith_append _ _
  have hdh : strDrop (name ++ "." ++ "health") (strLen (name ++ ".")) = "health" :=
    strDrop_append _ _
  have hds : strDrop (name ++ "." ++ "stop") (strLen (name ++ ".")) = "stop" :=
    strDrop_append _ _
  have hdm : strDrop (name ++ "." ++ "methods") (strLen (name ++ ".")) = "methods" :=
    strDrop_append _ _
  refine ⟨⟨?_, ?_⟩, ⟨?_, ?_⟩, ⟨?_, ?_⟩, ⟨?_, ?_⟩, ⟨?_, ?_⟩, ⟨?_, ?_⟩⟩ <;>
    simp [handleRequest, hh, hs, hm, hnh, hns, hnm, hdh, hds, hdm,
      handle_health_static, handle_methods_static]

/-- C9: `Request.from_ndjson_line` fails on every line that is not valid
JSON and on every JSON object line missing the required `id` field; on a
valid Request line that omits the `params` key it succeeds with `params`
equal to the empty mapping (never null), as witnessed for every rendered
object holding exactly `id`, `v` and `method`. -/
theorem C9_decode_failures :
    (∀ line, Json.parse line = none → Request.from_ndjson_line line = none) ∧
    (∀ line kvs, Json.parse line = some (.obj kvs) → (∀ p ∈ kvs, p.1 ≠ "id") →
      Request.from_ndjson_line line = none) ∧
    (∀ line kvs r, Json.parse line = some (.obj kvs) → (∀ p ∈ kvs, p.1 ≠ "params") →
      Request.from_ndjson_line line = some r → r.params = []) ∧
    (∀ (i m : String) (v : Fin 256),
      Request.from_ndjson_line
        (String.mk (Json.obj [("id", .str i), ("v", .num (v.val : Int)),
          ("method", .str m)]).render) = some ⟨i, v, m, []⟩) := by
  refine ⟨?_, ?_, ?_, ?_⟩
  · intro line h
    rw [Request.from_ndjson_line, h]
    rfl
  · intro line kvs hp hid
    rw [Request.from_ndjson_line, hp]
    rw [show ((some (Json.obj kvs)).bind Request.fromJson) =
      Request.fromJson (.obj kvs) from rfl]
    exact Request.fromJson_missing_id kvs hid
  · intro line kvs r hp hnp hr
    rw [Request.from_ndjson_line, hp] at hr
    rw [show ((some (Json.obj kvs)).bind Request.fromJson) =
      Request.fromJson (.obj kvs) from rfl] at hr
    exact Request.fromJson_no_params kvs hnp r hr
  · intro i m v
    rw [Request.from_ndjson_line, Json.parse_mk_render]
    rw [show ((some (Json.obj [("id", .str i), ("v", .num (v.val : Int)),
      ("method", .str m)])).bind Request.fromJson) =
      Request.fromJson (.obj [("id", .str i), ("v", .num (v.val : Int)),
        ("method", .str m)]) from rfl]
    rw [Request.fromJson_paramless i m (v.val : Int)
      (by exact_mod_cast Nat.zero_le _) (by exact_mod_cast v.isLt)]
    simp [Request.mk.injEq, Fin.ext_iff]

/-- C9 witness: a concrete line without `id` fails to decode; a concrete
line without `params` decodes with an empty params mapping. -/
theorem C9_decode_failures_witness :
    Request.from_ndjson_line "\x7b\"v\":1,\"method\":\"m\"\x7d" = none ∧
    (∃ r, Request.from_ndjson_line "\x7b\"id\":\"a\",\"v\":1,\"method\":\"m\"\x7d" = some r ∧
      r.params = []) :=
  ⟨C9_decode_failures.2.1 "\x7b\"v\":1,\"method\":\"m\"\x7d"
      [("v", .num 1), ("method", .str "m")] (by rfl) (by decide),
   ⟨⟨"a", 1, "m", []⟩, by rfl,
    C9_decode_failures.2.2.1 "\x7b\"id\":\"a\",\"v\":1,\"method\":\"m\"\x7d"
      [("id", .str "a"), ("v", .num 1), ("method", .str "m")] ⟨"a", 1, "m", []⟩
      (by rfl) (by decide) (by rfl)⟩⟩

/-- C10: both deserializers tolerate unknown extra JSON keys: appending
unrecognized members to a rendered object line leaves the decoded value
unchanged, and in particular a line that decodes successfully still decodes
to the same value with the extra keys present. -/
theorem C10_unknown_keys :
    (∀ kvs extra,
      (∀ p ∈ extra, p.1 ≠ "id" ∧ p.1 ≠ "v" ∧ p.1 ≠ "method" ∧ p.1 ≠ "params") →
      Request.from_ndjson_line (String.mk (Json.obj (kvs ++ extra)).render) =
        Request.from_ndjson_line (String.mk (Json.obj kvs).render)) ∧
    (∀ kvs extra r,
      (∀ p ∈ extra, p.1 ≠ "id" ∧ p.1 ≠ "v" ∧ p.1 ≠ "method" ∧ p.1 ≠ "params") →
      Request.from_ndjson_line (String.mk (Json.obj kvs).render) = some r →
      Request.from_ndjson_line (String.mk (Json.obj (kvs ++ extra)).render) = some r) ∧
    (∀ kvs extra,
      (∀ p ∈ extra, p.1 ≠ "id" ∧ p.1 ≠ "ok" ∧ p.1 ≠ "result" ∧ p.1 ≠ "error" ∧
        p.1 ≠ "meta") →
      Response.from_ndjson_line (String.mk (Json.obj (kvs ++ extra)).render) =
        Response.from_ndjson_line (String.mk (Json.obj kvs).render)) ∧
    (∀ kvs extra r,
      (∀ p ∈ extra, p.1 ≠ "id" ∧ p.1 ≠ "ok" ∧ p.1 ≠ "result" ∧ p.1 ≠ "error" ∧
        p.1 ≠ "meta") →
      Response.from_ndjson_line (String.mk (Json.obj kvs).render) = some r →
      Response.from_ndjson_line (String.mk (Json.obj (kvs ++ extra)).render) = some r) := by
  have hreq : ∀ kvs extra,
      (∀ p ∈ extra, p.1 ≠ "id" ∧ p.1 ≠ "v" ∧ p.1 ≠ "method" ∧ p.1 ≠ "params") →
      Request.from_ndjson_line (String.mk (Json.obj (kvs ++ extra)).render) =
        Request.from_ndjson_line (String.mk (Json.obj kvs).render) := by
    intro kvs extra h
    rw [Request.from_ndjson_line, Request.from_ndjson_line,
      Json.parse_mk_render, Json.parse_mk_render]
    rw [show ((some (Json.obj (kvs ++ extra))).bind Request.fromJson) =
      Request.fromJson (.obj (kvs ++ extra)) from rfl]
    rw [show ((some (Json.obj kvs)).bind Request.fromJson) =
      Request.fromJson (.obj kvs) from rfl]
    exact Request.fromJson_append_unknown kvs extra h
  have hresp : ∀ kvs extra,
      (∀ p ∈ extra, p.1 ≠ "id" ∧ p.1 ≠ "ok" ∧ p.1 ≠ "result" ∧ p.1 ≠ "error" ∧
        p.1 ≠ "meta") →
      Response.from_ndjson_line (String.mk (Json.obj (kvs ++ extra)).render) =
        Response.from_ndjson_line (String.mk (Json.obj kvs).render) := by
    intro kvs extra h
    rw [Response.from_ndjson_line, Response.from_ndjson_line,
      Json.parse_mk_render, Json.parse_mk_render]
    rw [show ((some (Json.obj (kvs ++ extra))).bind Response.fromJson) =
      Response.fromJson (.obj (kvs ++ extra)) from rfl]
    rw [show ((some (Json.obj kvs)).bind Response.fromJson) =
      Response.fromJson (.obj kvs) from rfl]
    exact response_fromJson_append_unknown kvs extra h
  exact ⟨hreq, fun kvs extra r h hr => (hreq kvs extra h).trans hr,
    hresp, fun kvs extra r h hr => (hresp kvs extra h).trans hr⟩

/-- C10 witness: a concrete Request line decodes to the same value with an
extra unknown member appended. -/
theorem C10_unknown_keys_witness :
    Request.from_ndjson_line (String.mk (Json.obj
      ([("id", .str "a"), ("v", .num 1), ("method", .str "m")] ++
        [("extra", .bool true)])).render) = some ⟨"a", 1, "m", []⟩ :=
  C10_unknown_keys.2.1
    [("id", .str "a"), ("v", .num 1), ("method", .str "m")]
    [("extra", .bool true)] ⟨"a", 1, "m", []⟩ (by decide) (by rfl)
